import Mathlib

/-!
# Rebin2D: overlap search and weighted aggregation

A shallow embedding of `Framework/Algorithms/src/Rebin2D.cpp`, of the
`WorkspaceHelpers` methods of `API/src/WorkspaceOpOverloads.cpp` and of the
constructor of `Histogram` from bin edges (`MantidHistogramData/Histogram.h`).

Conventions of the embedding.

* A C++ `double` is an element of an arbitrary linearly ordered field `α`
  (exact arithmetic, no rounding).  Every definition is computable and can be
  evaluated at `α = ℚ`.
* `std::sqrt` is a function parameter `sqrt : α → α`; the facts a theorem needs
  about it are hypotheses of that theorem.  Over `ℚ` they hold for `Rat.sqrt`.
* `/` is the division of the field.  It agrees with the C++ division whenever
  the divisor is not zero; theorems that depend on the value of a quotient
  assume a nonzero divisor.
* A `std::vector<double>` is a `List α`; `v[i]` is `v.getD i 0`.  The loops of
  the source only read indices that are in range when the vector is not empty.
  `v.size() - 1` is natural-number subtraction (the source wraps around for an
  empty vector and then reads out of range; the embedding performs no
  iteration in that case).
* The tolerance test of `WorkspaceHelpers` compares a quotient with a positive
  constant, and its divisor is zero for some well-formed inputs.  There the
  IEEE outcome is spelled out: `x / 0` with `x > 0` is `+∞`, which exceeds the
  constant, and `0 / 0` is NaN, for which the comparison is false.
* An `int` or `size_t` counter is a `Nat`; the counts involved are row and bin
  counts, far from the range where the machine integers wrap.
-/

namespace Rebin2D

/-- Modelled from the spec: the rectangle class `ConvexPolygon` of
`MantidGeometry/Math/ConvexPolygon.h`, which is not among the sources.  A
rectangle built by `ConvexPolygon(x_lo, x_hi, y_lo, y_hi)`; the source reads
`poly[0].X()` for `x_lo`, `poly[1].X()` for `x_hi`, `poly[0].Y()` for `y_lo`
and `poly[2].Y()` for `y_hi`. -/
structure ConvexPolygon (α : Type) where
  xLow : α
  xHigh : α
  yLow : α
  yHigh : α
deriving DecidableEq, Repr

/-- One entry of the overlap list: `BinWithWeight(i, j, weight)` stores the old
row index as `yIndex` and the old column index as `xIndex`. -/
structure BinWithWeight (α : Type) where
  yIndex : Nat
  xIndex : Nat
  weight : α
deriving DecidableEq, Repr

/-- One row of a workspace: bin boundaries, signal and error.  `xStorage` is
the address of the vector behind `readX(i)`: rows that hold the same
copy-on-write `X` vector have the same `xStorage`. -/
structure Spectrum (α : Type) where
  dataX : List α
  dataY : List α
  dataE : List α
  xStorage : Nat := 0
deriving DecidableEq, Repr

/-- The vertical axis of a workspace.  `exec` accepts only a `NumericAxis`;
every other kind of axis is `other`. -/
inductive Axis (α : Type) where
  | numeric (values : List α)
  | other
deriving DecidableEq, Repr

/-- The part of a `MatrixWorkspace` that `Rebin2D` and `WorkspaceHelpers` read
and write. -/
structure MatrixWorkspace (α : Type) where
  spectra : List (Spectrum α)
  axis1 : Axis α
  isDistribution : Bool
deriving DecidableEq, Repr

/-- Outcome of `exec`: the exception thrown for a non-numeric vertical axis. -/
inductive RebinError where
  | invalidArgument
deriving DecidableEq, Repr

/-- The two kinds of `X` data of a `Histogram` (`Histogram::XMode`). -/
inductive XMode where
  | BinEdges
  | Points
deriving DecidableEq, Repr

/-- The part of `HistogramData::Histogram` that its constructor from bin
edges sets: the `X` data and the mode. -/
structure Histogram (α : Type) where
  x : List α
  xMode : XMode
deriving DecidableEq, Repr

/-- The exception thrown by the constructor of `Histogram`. -/
inductive HistogramError where
  | logicError
deriving DecidableEq, Repr

section Defs

variable {α : Type} [LinearOrderedField α]

/-- Area of a rectangle.  Modelled from the spec: `ConvexPolygon::area` is not
among the sources; the spec calls it the area of the cell. -/
def ConvexPolygon.area (p : ConvexPolygon α) : α :=
  (p.xHigh - p.xLow) * (p.yHigh - p.yLow)

/-- Modelled from the spec: `chasingEdgeIntersect` of
`MantidGeometry/Math/PolygonIntersection.h` is not among the sources.  The
spec (CellOverlap): the intersection of two axis-aligned rectangles is
`max(xLow)..min(xHigh)` by `max(yLow)..min(yHigh)`; if either span is `≤ 0`
the rectangles are reported as non-overlapping.  `none` stands for the
`std::runtime_error` that `findIntersections` catches. -/
def chasingEdgeIntersect (P Q : ConvexPolygon α) : Option (ConvexPolygon α) :=
  let xLow := max P.xLow Q.xLow
  let xHigh := min P.xHigh Q.xHigh
  let yLow := max P.yLow Q.yLow
  let yHigh := min P.yHigh Q.yHigh
  if xHigh - xLow ≤ 0 ∨ yHigh - yLow ≤ 0 then none
  else some ⟨xLow, xHigh, yLow, yHigh⟩

/-- Modelled from the spec: the area computed by CellOverlap, which is zero
when the rectangles are reported as non-overlapping. -/
def cellOverlap (P Q : ConvexPolygon α) : α :=
  match chasingEdgeIntersect P Q with
  | some overlap => overlap.area
  | none => 0

/-- The boundaries `readX(i)` of row `i`. -/
def MatrixWorkspace.readX (ws : MatrixWorkspace α) (i : Nat) : List α :=
  match ws.spectra.get? i with
  | some s => s.dataX
  | none => []

/-- The signal `readY(i)[j]`. -/
def MatrixWorkspace.readY (ws : MatrixWorkspace α) (i j : Nat) : α :=
  match ws.spectra.get? i with
  | some s => s.dataY.getD j 0
  | none => 0

/-- The error `readE(i)[j]`. -/
def MatrixWorkspace.readE (ws : MatrixWorkspace α) (i j : Nat) : α :=
  match ws.spectra.get? i with
  | some s => s.dataE.getD j 0
  | none => 0

/-- The old cell in row `i` and column `j` of the grid spanned by the column
boundaries `oldAxis1` and the row boundaries `oldAxis2`
(`ConvexPolygon oldPoly(xo_lo, xo_hi, yo_lo, yo_hi)`). -/
def oldCell (oldAxis1 oldAxis2 : List α) (i j : Nat) : ConvexPolygon α :=
  ⟨oldAxis1.getD j 0, oldAxis1.getD (j + 1) 0, oldAxis2.getD i 0, oldAxis2.getD (i + 1) 0⟩

/-- The search `Rebin2D::findIntersections`: the old cells that overlap
`newPoly`, in row-major order, each with the fraction of its area that is
covered. -/
def findIntersections (oldAxis1 oldAxis2 : List α) (newPoly : ConvexPolygon α) :
    List (BinWithWeight α) :=
  let nxpoints := oldAxis1.length - 1
  let nypoints := oldAxis2.length - 1
  (List.range nypoints).flatMap fun i =>
    let yo_lo := oldAxis2.getD i 0
    let yo_hi := oldAxis2.getD (i + 1) 0
    if yo_hi < newPoly.yLow ∨ yo_lo > newPoly.yHigh then []
    else
      (List.range nxpoints).flatMap fun j =>
        let xo_lo := oldAxis1.getD j 0
        let xo_hi := oldAxis1.getD (j + 1) 0
        if xo_hi < newPoly.xLow ∨ xo_lo > newPoly.xHigh then []
        else
          let oldPoly : ConvexPolygon α := ⟨xo_lo, xo_hi, yo_lo, yo_hi⟩
          match chasingEdgeIntersect newPoly oldPoly with
          | some overlap => [⟨i, j, overlap.area / oldPoly.area⟩]
          | none => []

/-- The aggregation `Rebin2D::calculateYE(inputWS, overlaps)` for raw counts. -/
def calculateYEOverlaps (sqrt : α → α) (inputWS : MatrixWorkspace α)
    (overlaps : List (BinWithWeight α)) : α × α :=
  let totals := overlaps.foldl
    (fun (acc : α × α) itr =>
      (acc.1 + inputWS.readY itr.yIndex itr.xIndex * itr.weight,
       acc.2 + (inputWS.readE itr.yIndex itr.xIndex * itr.weight) ^ 2))
    (0, 0)
  (totals.1, sqrt totals.2)

/-- The aggregation `Rebin2D::calculateDistYE(inputWS, overlaps, newBinWidth)`
for a distribution. -/
def calculateDistYE (sqrt : α → α) (inputWS : MatrixWorkspace α)
    (overlaps : List (BinWithWeight α)) (newBinWidth : α) : α × α :=
  let oldXBins := inputWS.readX 0
  let totals := overlaps.foldl
    (fun (acc : α × α) itr =>
      let oldWidth := oldXBins.getD (itr.xIndex + 1) 0 - oldXBins.getD itr.xIndex 0
      (acc.1 + inputWS.readY itr.yIndex itr.xIndex * oldWidth * itr.weight,
       acc.2 + (inputWS.readE itr.yIndex itr.xIndex * oldWidth * itr.weight) ^ 2))
    (0, 0)
  (totals.1 / newBinWidth, sqrt totals.2 / newBinWidth)

/-- The signal and error of one new bin:
`Rebin2D::calculateYE(inputWS, oldYBins, newBin)`. -/
def calculateYE (sqrt : α → α) (inputWS : MatrixWorkspace α) (oldYBins : List α)
    (newBin : ConvexPolygon α) : α × α :=
  let oldXBins := inputWS.readX 0
  let overlaps := findIntersections oldXBins oldYBins newBin
  if inputWS.isDistribution then
    let newWidth := newBin.xHigh - newBin.xLow
    calculateDistYE sqrt inputWS overlaps newWidth
  else
    calculateYEOverlaps sqrt inputWS overlaps

/-- The new bin in row `i` and column `j` of the output grid
(`ConvexPolygon((*newXBins)[j], (*newXBins)[j+1], y_i, y_ip1)`). -/
def newBin (newXBins newYBins : List α) (i j : Nat) : ConvexPolygon α :=
  ⟨newXBins.getD j 0, newXBins.getD (j + 1) 0, newYBins.getD i 0, newYBins.getD (i + 1) 0⟩

/-- Row `i` of the output workspace as the loop body of `exec` fills it. -/
def execRow (sqrt : α → α) (inputWS : MatrixWorkspace α) (oldYBins newXBins newYBins : List α)
    (i : Nat) : Spectrum α :=
  let numSig := newXBins.length - 1
  let contribs := (List.range numSig).map fun j =>
    calculateYE sqrt inputWS oldYBins (newBin newXBins newYBins i j)
  { dataX := newXBins, dataY := contribs.map Prod.fst, dataE := contribs.map Prod.snd }

/-- The algorithm `Rebin2D::exec`.  `createBinBoundaries` is the method of
`NumericAxis` that turns the axis values into the old row boundaries; it is
not among the sources and is a parameter.  `newXBins` and `newYBins` are the
boundary vectors that `createOutputWorkspace` obtains from the binning
properties.  The rows are filled in index order (the source runs the row
loop in parallel; the rows are independent). -/
def exec (sqrt : α → α) (createBinBoundaries : List α → List α)
    (inputWS : MatrixWorkspace α) (newXBins newYBins : List α) :
    Except RebinError (MatrixWorkspace α) :=
  match inputWS.axis1 with
  | Axis.other => Except.error RebinError.invalidArgument
  | Axis.numeric values =>
    let oldYBins := createBinBoundaries values
    let numHist := newYBins.length - 1
    Except.ok
      { spectra := (List.range numHist).map fun i =>
          execRow sqrt inputWS oldYBins newXBins newYBins i
        axis1 := Axis.numeric ((List.range numHist).map fun i =>
          0.5 * (newYBins.getD i 0 + newYBins.getD (i + 1) 0))
        isDistribution := inputWS.isDistribution }


/-- Horizontal span of the intersection of `P` and `Q` (negative when they are
apart). -/
def spanX (P Q : ConvexPolygon α) : α := min P.xHigh Q.xHigh - max P.xLow Q.xLow

/-- Vertical span of the intersection of `P` and `Q`. -/
def spanY (P Q : ConvexPolygon α) : α := min P.yHigh Q.yHigh - max P.yLow Q.yLow

/-- Fraction of the old cell `Q` covered by `P` (zero when they do not overlap). -/
def overlapWeight (P Q : ConvexPolygon α) : α := cellOverlap P Q / Q.area

/-- The records that the search produces for one old cell: one record when the
overlap area is positive, none otherwise. -/
def cellRecords (oldAxis1 oldAxis2 : List α) (newPoly : ConvexPolygon α) (i j : Nat) :
    List (BinWithWeight α) :=
  if 0 < cellOverlap newPoly (oldCell oldAxis1 oldAxis2 i j) then
    [⟨i, j, cellOverlap newPoly (oldCell oldAxis1 oldAxis2 i j)
      / (oldCell oldAxis1 oldAxis2 i j).area⟩]
  else []

/-- The weight that a list of overlap records assigns to the old cell in row
`i` and column `j` (zero when the list has no record for it). -/
def assignedWeight (overlaps : List (BinWithWeight α)) (i j : Nat) : α :=
  (overlaps.map fun o => if o.yIndex = i ∧ o.xIndex = j then o.weight else 0).sum

/-- Total signal of a workspace: the sum of `Y` over all rows and bins. -/
def totalY (ws : MatrixWorkspace α) : α :=
  (ws.spectra.map fun s => s.dataY.sum).sum

/-- The number of rows, `getNumberHistograms()`.  The workspace class is not
among the sources; the method has its documented meaning. -/
def MatrixWorkspace.getNumberHistograms (ws : MatrixWorkspace α) : Nat :=
  ws.spectra.length

/-- The number of bins in a row, `blocksize()`: the length of the `Y` vector
of the first row, and zero for a workspace without rows.  The workspace class
is not among the sources; the method has its documented meaning. -/
def MatrixWorkspace.blocksize (ws : MatrixWorkspace α) : Nat :=
  match ws.spectra.get? 0 with
  | some s => s.dataY.length
  | none => 0

/-- The total number of data points, `size()`: rows times bins per row.  The
workspace class is not among the sources; the method has its documented
meaning. -/
def MatrixWorkspace.size (ws : MatrixWorkspace α) : Nat :=
  ws.getNumberHistograms * ws.blocksize

/-- The address `&(readX(i)[0])` of the first boundary of row `i`. -/
def MatrixWorkspace.xAddress (ws : MatrixWorkspace α) (i : Nat) : Nat :=
  match ws.spectra.get? i with
  | some s => s.xStorage
  | none => 0

/-- The constant `1.0E-7`. -/
def tolerance : α := 1 / 10000000

/-- The test `std::abs(a-b)/std::max<double>(a,b) > 1.0E-7` of
`commonBoundaries` and `matchingBins`.  For a zero divisor the quotient is
`+∞` when `a ≠ b` (the test succeeds) and NaN when `a = b` (the test fails). -/
def exceedsTolerance (a b : α) : Bool :=
  if max a b = 0 then decide (a ≠ b)
  else decide (|a - b| / max a b > tolerance)

/-- The sum `std::accumulate(readX(i).begin(), readX(i).end(), 0.)` of the
boundaries of row `i`. -/
def MatrixWorkspace.sumX (ws : MatrixWorkspace α) (i : Nat) : α :=
  (ws.readX i).foldl (· + ·) 0

/-- `WorkspaceHelpers::sharedXData`: whether every row holds the same `X`
vector as row 0.  The loop returns `false` at the first row with another
address. -/
def sharedXData (ws : MatrixWorkspace α) : Bool :=
  let first := ws.xAddress 0
  let numHist := ws.getNumberHistograms
  (List.range' 1 (numHist - 1)).all fun i => decide (first = ws.xAddress i)

/-- The loop at the end of `commonBoundaries`: the sum of every row `j ≥ 1`
is tested against the sum of row 0, and the first row that exceeds the
tolerance makes the result `false`. -/
def commonSumCheck (ws : MatrixWorkspace α) : Bool :=
  let commonSum := ws.sumX 0
  let numHist := ws.getNumberHistograms
  (List.range' 1 (numHist - 1)).all fun j => !exceedsTolerance commonSum (ws.sumX j)

/-- `WorkspaceHelpers::commonBoundaries`. -/
def commonBoundaries (ws : MatrixWorkspace α) : Bool :=
  if ws.blocksize = 0 ∨ ws.getNumberHistograms < 2 then true
  else if sharedXData ws then true
  else commonSumCheck ws

/-- The row indices visited by `for (int i = step; i < numHist; i+=step)`,
unrolled at most `fuel` times. -/
def sampledRowsFrom (step numHist : Nat) : Nat → Nat → List Nat
  | 0, _ => []
  | fuel + 1, i =>
    if i < numHist then i :: sampledRowsFrom step numHist fuel (i + step) else []

/-- The rows compared by the sampling loop of `matchingBins`.  With
`step ≥ 1` the loop runs fewer than `numHist` times, so `numHist` unrollings
cover it. -/
def sampledRows (step numHist : Nat) : List Nat :=
  sampledRowsFrom step numHist numHist step

/-- The stride of the sampling loop of `matchingBins` for `numHist` rows. -/
def sampleStep (numHist : Nat) : Nat :=
  let numberToCheck := numHist / 10
  let numberToCheck := if numberToCheck < 10 then 10 else numberToCheck
  let numberToCheck := if numberToCheck > 100 then 100 else numberToCheck
  let step := numHist / numberToCheck
  if step = 0 then 1 else step

/-- `WorkspaceHelpers::matchingBins`. -/
def matchingBins (ws1 ws2 : MatrixWorkspace α) (firstOnly : Bool) : Bool :=
  if (ws1.readX 0).length ≠ (ws2.readX 0).length then false
  else
    let firstWS := ws1.sumX 0
    let secondWS := ws2.sumX 0
    if exceedsTolerance firstWS secondWS then false
    else if firstOnly then true
    else if ws1.size ≠ ws2.size then false
    else if sharedXData ws1 && sharedXData ws2 then true
    else
      let numHist := ws1.getNumberHistograms
      let step := sampleStep numHist
      (sampledRows step numHist).all fun i =>
        !exceedsTolerance (ws1.sumX i) (ws2.sumX i)

/-- One pass of the inner loop of `makeDistribution`: bin `j` of a row is
divided by its width, or by the reciprocal of its width when `forwards` is
false. -/
def makeDistributionBin (forwards : Bool) (s : Spectrum α) (j : Nat) : Spectrum α :=
  let width := |s.dataX.getD (j + 1) 0 - s.dataX.getD j 0|
  let width := if !forwards then 1 / width else width
  { s with
    dataY := s.dataY.set j (s.dataY.getD j 0 / width)
    dataE := s.dataE.set j (s.dataE.getD j 0 / width) }

/-- The inner loop of `makeDistribution` over the bins `0 .. size-1` of one
row. -/
def makeDistributionRow (forwards : Bool) (size : Nat) (s : Spectrum α) : Spectrum α :=
  (List.range size).foldl (makeDistributionBin forwards) s

/-- `WorkspaceHelpers::makeDistribution`.  The rows are updated one after the
other; `blocksize()` does not change while they are, so it is read once. -/
def makeDistribution (ws : MatrixWorkspace α) (forwards : Bool) : MatrixWorkspace α :=
  if ws.isDistribution = forwards then ws
  else
    { ws with
      spectra := ws.spectra.map (makeDistributionRow forwards ws.blocksize)
      isDistribution := forwards }

/-- The naive search that C27 compares `findIntersections` with, written from
the words of the claim: the overlap is computed for every pair `(i, j)` of an
old row and an old column, in row-major order, without the 1-D rejections. -/
def naiveIntersections (oldAxis1 oldAxis2 : List α) (newPoly : ConvexPolygon α) :
    List (BinWithWeight α) :=
  (List.range (oldAxis2.length - 1)).flatMap fun i =>
    (List.range (oldAxis1.length - 1)).flatMap fun j =>
      let oldPoly : ConvexPolygon α :=
        ⟨oldAxis1.getD j 0, oldAxis1.getD (j + 1) 0, oldAxis2.getD i 0, oldAxis2.getD (i + 1) 0⟩
      match chasingEdgeIntersect newPoly oldPoly with
      | some overlap => [⟨i, j, overlap.area / oldPoly.area⟩]
      | none => []

/-- The labels of the vertical axis of a workspace (empty when the axis is not
numeric). -/
def MatrixWorkspace.axisValues (ws : MatrixWorkspace α) : List α :=
  match ws.axis1 with
  | Axis.numeric values => values
  | Axis.other => []

/-- The constructor `Histogram::Histogram(const BinEdges &edges)`: the edges
become the `X` data, and `std::logic_error` is thrown when there is exactly
one edge.  `BinEdges` is not among the sources and is the list of its values. -/
def Histogram.fromBinEdges (edges : List α) : Except HistogramError (Histogram α) :=
  let h : Histogram α := { x := edges, xMode := XMode.BinEdges }
  if h.x.length = 1 then Except.error HistogramError.logicError
  else Except.ok h

end Defs

section Examples

/-- A two-by-two grid of raw counts over the rationals. -/
def gridCounts : MatrixWorkspace ℚ :=
  { spectra := [⟨[0, 1, 2], [3, 5], [3, 4], 0⟩, ⟨[0, 1, 2], [7, 11], [1, 2], 0⟩],
    axis1 := Axis.numeric [0, 1, 2], isDistribution := false }

/-- The same grid flagged as a distribution. -/
def gridDist : MatrixWorkspace ℚ :=
  { spectra := [⟨[0, 1, 2], [3, 5], [3, 4], 0⟩, ⟨[0, 1, 2], [7, 11], [1, 2], 0⟩],
    axis1 := Axis.numeric [0, 1, 2], isDistribution := true }

/-- A grid of raw counts whose numeric row axis has the values `[0, 2, 1]`,
which are neither increasing nor decreasing. -/
def gridUnorderedAxis : MatrixWorkspace ℚ :=
  { spectra := [⟨[0, 1], [1], [1], 0⟩, ⟨[0, 1], [2], [1], 0⟩],
    axis1 := Axis.numeric [0, 2, 1], isDistribution := false }

/-- A one-cell grid whose row axis is not numeric. -/
def gridOtherAxis : MatrixWorkspace ℚ :=
  { spectra := [⟨[0, 1], [1], [1], 0⟩], axis1 := Axis.other, isDistribution := false }

/-- A grid of raw counts with bins of width 2 and 1; the rows hold separate
`X` vectors. -/
def gridWideCounts : MatrixWorkspace ℚ :=
  { spectra := [⟨[0, 2, 3], [4, 5], [2, 1], 0⟩, ⟨[0, 2, 3], [6, 8], [1, 3], 1⟩],
    axis1 := Axis.numeric [0, 1, 2], isDistribution := false }

/-- A one-cell distribution whose bin has the width 2. -/
def gridWideDist : MatrixWorkspace ℚ :=
  { spectra := [⟨[0, 2], [3], [1], 0⟩], axis1 := Axis.numeric [0, 1], isDistribution := true }

/-- Two rows with separate `X` vectors whose boundary sums are `-3` and `-30`. -/
def gridNegativeSums : MatrixWorkspace ℚ :=
  { spectra := [⟨[-2, -1], [4], [2], 0⟩, ⟨[-20, -10], [6], [1], 1⟩],
    axis1 := Axis.numeric [0, 1, 2], isDistribution := false }

/-- Two rows with separate `X` vectors that differ in every boundary and have
the same boundary sum. -/
def gridCancellingRows : MatrixWorkspace ℚ :=
  { spectra := [⟨[0, 3], [4], [2], 0⟩, ⟨[1, 2], [6], [1], 1⟩],
    axis1 := Axis.numeric [0, 1, 2], isDistribution := false }

/-- Two rows with separate `X` vectors whose boundary sums are 6 and 7. -/
def gridDifferentRows : MatrixWorkspace ℚ :=
  { spectra := [⟨[1, 2, 3], [4, 5], [2, 1], 0⟩, ⟨[1, 2, 4], [6, 8], [1, 3], 1⟩],
    axis1 := Axis.numeric [0, 1, 2], isDistribution := false }

/-- A grid with three bins in its only row. -/
def gridThreeBins : MatrixWorkspace ℚ :=
  { spectra := [⟨[0, 1, 2, 3], [1, 1, 1], [1, 1, 1], 0⟩],
    axis1 := Axis.numeric [0, 1], isDistribution := false }

/-- Two rows with separate `X` vectors and the same boundaries. -/
def gridValueEqualRows : MatrixWorkspace ℚ :=
  { spectra := [⟨[1, 2, 3], [4, 5], [2, 1], 0⟩, ⟨[1, 2, 3], [6, 8], [1, 3], 1⟩],
    axis1 := Axis.numeric [0, 1, 2], isDistribution := false }

/-- A one-row grid whose boundaries add up to `-3`. -/
def gridMinusThree : MatrixWorkspace ℚ :=
  { spectra := [⟨[-2, -1], [4], [2], 0⟩], axis1 := Axis.numeric [0, 1], isDistribution := false }

/-- A one-row grid whose boundaries add up to `-30`. -/
def gridMinusThirty : MatrixWorkspace ℚ :=
  { spectra := [⟨[-20, -10], [4], [2], 0⟩], axis1 := Axis.numeric [0, 1],
    isDistribution := false }

/-- The grid `gridCounts` with other column boundaries in row 1. -/
def gridCountsOtherX : MatrixWorkspace ℚ :=
  { spectra := [⟨[0, 1, 2], [3, 5], [3, 4], 0⟩, ⟨[7, 8, 9], [7, 11], [1, 2], 1⟩],
    axis1 := Axis.numeric [0, 1, 2], isDistribution := false }

/-- The grid `gridCounts` with the signal `2 * Y + 3 * Y` and other errors. -/
def gridCountsCombined : MatrixWorkspace ℚ :=
  { spectra := [⟨[0, 1, 2], [15, 25], [0, 9], 0⟩, ⟨[0, 1, 2], [35, 55], [7, 7], 0⟩],
    axis1 := Axis.numeric [0, 1, 2], isDistribution := false }

/-- A grid with `n` one-bin rows over the boundaries `[0, 1]`, every row with
an `X` vector of its own. -/
def separateRowsGrid (n : Nat) : MatrixWorkspace ℚ :=
  { spectra := (List.range n).map fun i => ⟨[0, 1], [1], [1], i⟩,
    axis1 := Axis.other, isDistribution := false }

/-- The grid `separateRowsGrid 1000` with the boundaries `[5, 9]` in row 999. -/
def lastRowChangedGrid : MatrixWorkspace ℚ :=
  { spectra := (List.range 1000).map fun i =>
      ⟨if i = 999 then [5, 9] else [0, 1], [1], [1], i⟩,
    axis1 := Axis.other, isDistribution := false }

end Examples

section Lemmas
variable {α : Type} [LinearOrderedField α]


theorem chasingEdgeIntersect_none_iff (P Q : ConvexPolygon α) :
    chasingEdgeIntersect P Q = none ↔ (spanX P Q ≤ 0 ∨ spanY P Q ≤ 0) := by
  unfold chasingEdgeIntersect spanX spanY
  simp only
  split_ifs with h
  · exact iff_of_true rfl h
  · exact iff_of_false (fun hc => by simp at hc) h

theorem cellOverlap_of_pos (P Q : ConvexPolygon α) (hx : 0 < spanX P Q) (hy : 0 < spanY P Q) :
    chasingEdgeIntersect P Q
        = some ⟨max P.xLow Q.xLow, min P.xHigh Q.xHigh, max P.yLow Q.yLow, min P.yHigh Q.yHigh⟩
      ∧ cellOverlap P Q = spanX P Q * spanY P Q := by
  have h : ¬ (min P.xHigh Q.xHigh - max P.xLow Q.xLow ≤ 0
      ∨ min P.yHigh Q.yHigh - max P.yLow Q.yLow ≤ 0) := by
    unfold spanX at hx; unfold spanY at hy
    rintro (h | h) <;> linarith
  constructor
  · unfold chasingEdgeIntersect; simp only; rw [if_neg h]
  · unfold cellOverlap chasingEdgeIntersect; simp only; rw [if_neg h]
    simp [ConvexPolygon.area, spanX, spanY]

theorem cellOverlap_of_nonpos (P Q : ConvexPolygon α) (h : spanX P Q ≤ 0 ∨ spanY P Q ≤ 0) :
    cellOverlap P Q = 0 := by
  unfold cellOverlap
  rw [(chasingEdgeIntersect_none_iff P Q).2 h]

theorem cellOverlap_eq (P Q : ConvexPolygon α) :
    cellOverlap P Q = max 0 (spanX P Q) * max 0 (spanY P Q) := by
  by_cases hx : 0 < spanX P Q
  · by_cases hy : 0 < spanY P Q
    · rw [(cellOverlap_of_pos P Q hx hy).2, max_eq_right hx.le, max_eq_right hy.le]
    · rw [cellOverlap_of_nonpos P Q (Or.inr (not_lt.1 hy)), max_eq_left (not_lt.1 hy), mul_zero]
  · rw [cellOverlap_of_nonpos P Q (Or.inl (not_lt.1 hx)), max_eq_left (not_lt.1 hx), zero_mul]

theorem cellOverlap_nonneg (P Q : ConvexPolygon α) : 0 ≤ cellOverlap P Q := by
  rw [cellOverlap_eq]
  exact mul_nonneg (le_max_left _ _) (le_max_left _ _)

theorem cellOverlap_pos_iff (P Q : ConvexPolygon α) :
    0 < cellOverlap P Q ↔ 0 < spanX P Q ∧ 0 < spanY P Q := by
  constructor
  · intro h
    by_contra hc
    have : spanX P Q ≤ 0 ∨ spanY P Q ≤ 0 := by
      by_cases hx : 0 < spanX P Q
      · right; exact not_lt.1 (fun hy => hc ⟨hx, hy⟩)
      · left; exact not_lt.1 hx
    rw [cellOverlap_of_nonpos P Q this] at h
    exact lt_irrefl _ h
  · rintro ⟨hx, hy⟩
    rw [(cellOverlap_of_pos P Q hx hy).2]
    exact mul_pos hx hy


theorem spanX_neg_of_reject (P Q : ConvexPolygon α) (h : Q.xHigh < P.xLow ∨ Q.xLow > P.xHigh) :
    spanX P Q < 0 := by
  unfold spanX
  rcases h with h | h
  · have h1 := min_le_right P.xHigh Q.xHigh
    have h2 := le_max_left P.xLow Q.xLow
    linarith
  · have h1 := min_le_left P.xHigh Q.xHigh
    have h2 := le_max_right P.xLow Q.xLow
    linarith

theorem spanY_neg_of_reject (P Q : ConvexPolygon α) (h : Q.yHigh < P.yLow ∨ Q.yLow > P.yHigh) :
    spanY P Q < 0 := by
  unfold spanY
  rcases h with h | h
  · have h1 := min_le_right P.yHigh Q.yHigh
    have h2 := le_max_left P.yLow Q.yLow
    linarith
  · have h1 := min_le_left P.yHigh Q.yHigh
    have h2 := le_max_right P.yLow Q.yLow
    linarith


theorem cellRecords_of_nonpos (ax1 ax2 : List α) (P : ConvexPolygon α) (i j : Nat)
    (h : spanX P (oldCell ax1 ax2 i j) ≤ 0 ∨ spanY P (oldCell ax1 ax2 i j) ≤ 0) :
    cellRecords ax1 ax2 P i j = [] := by
  unfold cellRecords
  rw [cellOverlap_of_nonpos P _ h, if_neg (lt_irrefl _)]

theorem match_chasing_eq_cellRecords (ax1 ax2 : List α) (P : ConvexPolygon α) (i j : Nat) :
    (match chasingEdgeIntersect P (oldCell ax1 ax2 i j) with
      | some overlap => [(⟨i, j, overlap.area / (oldCell ax1 ax2 i j).area⟩ : BinWithWeight α)]
      | none => []) = cellRecords ax1 ax2 P i j := by
  by_cases h : 0 < cellOverlap P (oldCell ax1 ax2 i j)
  · have hp := (cellOverlap_pos_iff _ _).1 h
    have hc := cellOverlap_of_pos P (oldCell ax1 ax2 i j) hp.1 hp.2
    unfold cellRecords
    rw [if_pos h]
    unfold cellOverlap
    rw [hc.1]
  · have hn : spanX P (oldCell ax1 ax2 i j) ≤ 0 ∨ spanY P (oldCell ax1 ax2 i j) ≤ 0 := by
      by_contra hc
      push_neg at hc
      exact h ((cellOverlap_pos_iff _ _).2 hc)
    rw [cellRecords_of_nonpos ax1 ax2 P i j hn, (chasingEdgeIntersect_none_iff _ _).2 hn]

theorem flatMap_nil_of_forall {β γ : Type} (l : List β) (g : β → List γ)
    (h : ∀ a ∈ l, g a = []) : l.flatMap g = [] := by
  induction l with
  | nil => rfl
  | cons a l ih =>
    rw [List.flatMap_cons, h a (List.mem_cons_self _ _), List.nil_append]
    exact ih (fun b hb => h b (List.mem_cons_of_mem _ hb))

theorem flatMap_congr_mem {β γ : Type} (l : List β) (g g2 : β → List γ)
    (h : ∀ a ∈ l, g a = g2 a) : l.flatMap g = l.flatMap g2 := by
  induction l with
  | nil => rfl
  | cons a l ih =>
    rw [List.flatMap_cons, List.flatMap_cons, h a (List.mem_cons_self _ _),
      ih (fun b hb => h b (List.mem_cons_of_mem _ hb))]

/-- The search visits every old cell: the early rejections only skip cells
whose record list is empty. -/
theorem findIntersections_eq (ax1 ax2 : List α) (P : ConvexPolygon α) :
    findIntersections ax1 ax2 P
      = (List.range (ax2.length - 1)).flatMap fun i =>
          (List.range (ax1.length - 1)).flatMap fun j => cellRecords ax1 ax2 P i j := by
  unfold findIntersections
  simp only
  apply flatMap_congr_mem
  intro i _
  split_ifs with hy
  · symm
    apply flatMap_nil_of_forall
    intro j _
    exact cellRecords_of_nonpos ax1 ax2 P i j
      (Or.inr (spanY_neg_of_reject P (oldCell ax1 ax2 i j) hy).le)
  · apply flatMap_congr_mem
    intro j _
    split_ifs with hx
    · symm
      exact cellRecords_of_nonpos ax1 ax2 P i j
        (Or.inl (spanX_neg_of_reject P (oldCell ax1 ax2 i j) hx).le)
    · exact match_chasing_eq_cellRecords ax1 ax2 P i j


theorem sum_map_flatMap {β γ : Type} (l : List β) (g : β → List γ) (f : γ → α) :
    ((l.flatMap g).map f).sum = (l.map fun a => ((g a).map f).sum).sum := by
  induction l with
  | nil => rfl
  | cons a l ih =>
    rw [List.flatMap_cons, List.map_append, List.sum_append, ih, List.map_cons, List.sum_cons]

theorem sum_map_range (n : Nat) (f : Nat → α) :
    ((List.range n).map f).sum = ∑ i in Finset.range n, f i := by
  induction n with
  | zero => rfl
  | succ n ih =>
    rw [List.range_succ, List.map_append, List.sum_append, ih, Finset.sum_range_succ]
    simp

theorem overlapWeight_of_not_pos (P Q : ConvexPolygon α) (h : ¬ 0 < cellOverlap P Q) :
    overlapWeight P Q = 0 := by
  have h0 : cellOverlap P Q = 0 := le_antisymm (not_lt.1 h) (cellOverlap_nonneg P Q)
  unfold overlapWeight
  rw [h0, zero_div]

theorem sum_map_findIntersections (ax1 ax2 : List α) (P : ConvexPolygon α)
    (f : BinWithWeight α → α) :
    ((findIntersections ax1 ax2 P).map f).sum
      = ∑ i in Finset.range (ax2.length - 1), ∑ j in Finset.range (ax1.length - 1),
          if 0 < cellOverlap P (oldCell ax1 ax2 i j) then
            f ⟨i, j, overlapWeight P (oldCell ax1 ax2 i j)⟩
          else 0 := by
  rw [findIntersections_eq, sum_map_flatMap, sum_map_range]
  apply Finset.sum_congr rfl
  intro i _
  rw [sum_map_flatMap, sum_map_range]
  apply Finset.sum_congr rfl
  intro j _
  unfold cellRecords overlapWeight
  split_ifs with h
  · simp
  · simp

theorem foldl_pair_sum {β : Type} (g h : β → α) (l : List β) (a b : α) :
    l.foldl (fun (acc : α × α) x => (acc.1 + g x, acc.2 + h x)) (a, b)
      = (a + (l.map g).sum, b + (l.map h).sum) := by
  induction l generalizing a b with
  | nil => simp
  | cons x l ih =>
    rw [List.foldl_cons, ih, List.map_cons, List.sum_cons, List.map_cons, List.sum_cons,
      add_assoc, add_assoc]

theorem calculateYEOverlaps_eq (sqrt : α → α) (ws : MatrixWorkspace α)
    (overlaps : List (BinWithWeight α)) :
    calculateYEOverlaps sqrt ws overlaps
      = ((overlaps.map fun o => ws.readY o.yIndex o.xIndex * o.weight).sum,
         sqrt (overlaps.map fun o => (ws.readE o.yIndex o.xIndex * o.weight) ^ 2).sum) := by
  unfold calculateYEOverlaps
  simp only
  rw [foldl_pair_sum (fun o : BinWithWeight α => ws.readY o.yIndex o.xIndex * o.weight)
    (fun o : BinWithWeight α => (ws.readE o.yIndex o.xIndex * o.weight) ^ 2)]
  simp

theorem calculateDistYE_eq (sqrt : α → α) (ws : MatrixWorkspace α)
    (overlaps : List (BinWithWeight α)) (newBinWidth : α) :
    calculateDistYE sqrt ws overlaps newBinWidth
      = ((overlaps.map fun o => ws.readY o.yIndex o.xIndex
            * ((ws.readX 0).getD (o.xIndex + 1) 0 - (ws.readX 0).getD o.xIndex 0)
            * o.weight).sum / newBinWidth,
         sqrt (overlaps.map fun o => (ws.readE o.yIndex o.xIndex
            * ((ws.readX 0).getD (o.xIndex + 1) 0 - (ws.readX 0).getD o.xIndex 0)
            * o.weight) ^ 2).sum / newBinWidth) := by
  unfold calculateDistYE
  simp only
  rw [foldl_pair_sum (fun o : BinWithWeight α => ws.readY o.yIndex o.xIndex
        * ((ws.readX 0).getD (o.xIndex + 1) 0 - (ws.readX 0).getD o.xIndex 0) * o.weight)
    (fun o : BinWithWeight α => (ws.readE o.yIndex o.xIndex
        * ((ws.readX 0).getD (o.xIndex + 1) 0 - (ws.readX 0).getD o.xIndex 0) * o.weight) ^ 2)]
  simp


theorem getD_lt_succ_of_sorted (l : List α) (h : l.Sorted (· < ·)) (k : Nat)
    (hk : k + 1 < l.length) : l.getD k 0 < l.getD (k + 1) 0 := by
  rw [List.getD_eq_getElem l 0 hk, List.getD_eq_getElem l 0 (Nat.lt_of_succ_lt hk)]
  exact (List.pairwise_iff_getElem.1 h) k (k + 1) _ _ (Nat.lt_succ_self k)

theorem getD_le_of_sorted (l : List α) (h : l.Sorted (· < ·)) (i j : Nat) (hij : i ≤ j)
    (hj : j < l.length) : l.getD i 0 ≤ l.getD j 0 := by
  induction j with
  | zero =>
    have : i = 0 := Nat.le_zero.1 hij
    rw [this]
  | succ j ih =>
    rcases Nat.lt_or_ge i (j + 1) with hlt | hge
    · exact le_trans (ih (Nat.lt_succ_iff.1 hlt) (Nat.lt_of_succ_lt hj))
        (getD_lt_succ_of_sorted l h j hj).le
    · have : i = j + 1 := le_antisymm hij hge
      rw [this]

theorem mem_bounds_of_sorted (l : List α) (h : l.Sorted (· < ·)) (x : α) (hx : x ∈ l) :
    l.getD 0 0 ≤ x ∧ x ≤ l.getD (l.length - 1) 0 := by
  obtain ⟨k, hk, rfl⟩ := List.mem_iff_getElem.1 hx
  rw [← List.getD_eq_getElem l 0 hk]
  exact ⟨getD_le_of_sorted l h 0 k (Nat.zero_le k) hk,
    getD_le_of_sorted l h k (l.length - 1) (by omega) (by omega)⟩

theorem max_zero_span_step (b0 bn bn1 lo hi : α) (h0 : b0 ≤ bn) (h1 : bn ≤ bn1)
    (hlh : lo ≤ hi) :
    max 0 (min bn hi - max b0 lo) + max 0 (min bn1 hi - max bn lo)
      = max 0 (min bn1 hi - max b0 lo) := by
  rcases le_total bn lo with hA | hA
  · have e1 : min bn hi = bn := min_eq_left (le_trans hA hlh)
    have e2 : max b0 lo = lo := max_eq_right (le_trans h0 hA)
    have e3 : max bn lo = lo := max_eq_right hA
    rw [e1, e2, e3, max_eq_left (by linarith : bn - lo ≤ 0), zero_add]
  · rcases le_total hi bn with hB | hB
    · have e1 : min bn hi = hi := min_eq_right hB
      have e2 : min bn1 hi = hi := min_eq_right (le_trans hB h1)
      have e3 : max bn lo = bn := max_eq_left hA
      rw [e1, e2, e3, max_eq_left (by linarith : hi - bn ≤ 0), add_zero]
    · have e1 : min bn hi = bn := min_eq_left hB
      have e3 : max bn lo = bn := max_eq_left hA
      have hm : bn ≤ min bn1 hi := le_min h1 hB
      have hM : max b0 lo ≤ bn := max_le h0 hA
      rw [e1, e3, max_eq_right (by linarith : 0 ≤ bn - max b0 lo),
        max_eq_right (by linarith : 0 ≤ min bn1 hi - bn),
        max_eq_right (by linarith : 0 ≤ min bn1 hi - max b0 lo)]
      ring

/-- The positive parts of the overlaps of `[lo, hi]` with the consecutive
intervals of a monotone boundary sequence add up to the positive part of its
overlap with their union. -/
theorem sum_max_zero_span (b : Nat → α) (lo hi : α) (hlh : lo ≤ hi) (n : Nat)
    (hmono : ∀ i j, i ≤ j → j ≤ n → b i ≤ b j) :
    ∑ c in Finset.range n, max 0 (min (b (c + 1)) hi - max (b c) lo)
      = max 0 (min (b n) hi - max (b 0) lo) := by
  induction n with
  | zero =>
    rw [Finset.sum_range_zero]
    symm
    apply max_eq_left
    have h1 := min_le_left (b 0) hi
    have h2 := le_max_left (b 0) lo
    linarith
  | succ n ih =>
    rw [Finset.sum_range_succ, ih (fun i j hij hj => hmono i j hij (Nat.le_succ_of_le hj))]
    exact max_zero_span_step (b 0) (b n) (b (n + 1)) lo hi
      (hmono 0 n (Nat.zero_le n) (Nat.le_succ n))
      (hmono n (n + 1) (Nat.le_succ n) (le_refl _)) hlh

end Lemmas

section Claims
variable {α : Type} [LinearOrderedField α]

theorem calculateYE_of_counts (sqrt : α → α) (ws : MatrixWorkspace α) (oldYBins : List α)
    (P : ConvexPolygon α) (h : ws.isDistribution = false) :
    calculateYE sqrt ws oldYBins P
      = calculateYEOverlaps sqrt ws (findIntersections (ws.readX 0) oldYBins P) := by
  unfold calculateYE
  simp [h]

theorem calculateYE_of_dist (sqrt : α → α) (ws : MatrixWorkspace α) (oldYBins : List α)
    (P : ConvexPolygon α) (h : ws.isDistribution = true) :
    calculateYE sqrt ws oldYBins P
      = calculateDistYE sqrt ws (findIntersections (ws.readX 0) oldYBins P)
          (P.xHigh - P.xLow) := by
  unfold calculateYE
  simp [h]

/-- C2: in counts mode the aggregation returns `Y_out = Σ w_k * Y_in[i_k][j_k]`
and `E_out = sqrt (Σ (w_k * E_in[i_k][j_k])^2)` for every list of overlap
records; `calculateYE` uses this aggregation whenever the input is not a
distribution; for two records `E_out = sqrt ((w1*e1)^2 + (w2*e2)^2)`, which
differs from `w1*e1 + w2*e2` whenever the square root is exact there and both
contributions are nonzero. -/
theorem counts_quadrature_law (sqrt : α → α) (ws : MatrixWorkspace α)
    (overlaps : List (BinWithWeight α)) :
    calculateYEOverlaps sqrt ws overlaps
        = ((overlaps.map fun o => o.weight * ws.readY o.yIndex o.xIndex).sum,
           sqrt (overlaps.map fun o => (o.weight * ws.readE o.yIndex o.xIndex) ^ 2).sum)
      ∧ (∀ (oldYBins : List α) (P : ConvexPolygon α), ws.isDistribution = false →
          calculateYE sqrt ws oldYBins P
            = calculateYEOverlaps sqrt ws (findIntersections (ws.readX 0) oldYBins P))
      ∧ (∀ r1 r2 : BinWithWeight α,
          (calculateYEOverlaps sqrt ws [r1, r2]).2
              = sqrt ((r1.weight * ws.readE r1.yIndex r1.xIndex) ^ 2
                  + (r2.weight * ws.readE r2.yIndex r2.xIndex) ^ 2)
            ∧ (sqrt ((r1.weight * ws.readE r1.yIndex r1.xIndex) ^ 2
                  + (r2.weight * ws.readE r2.yIndex r2.xIndex) ^ 2)
                * sqrt ((r1.weight * ws.readE r1.yIndex r1.xIndex) ^ 2
                  + (r2.weight * ws.readE r2.yIndex r2.xIndex) ^ 2)
                = (r1.weight * ws.readE r1.yIndex r1.xIndex) ^ 2
                  + (r2.weight * ws.readE r2.yIndex r2.xIndex) ^ 2 →
              (r1.weight * ws.readE r1.yIndex r1.xIndex)
                * (r2.weight * ws.readE r2.yIndex r2.xIndex) ≠ 0 →
              (calculateYEOverlaps sqrt ws [r1, r2]).2
                ≠ r1.weight * ws.readE r1.yIndex r1.xIndex
                  + r2.weight * ws.readE r2.yIndex r2.xIndex)) := by
  have hgen : ∀ l : List (BinWithWeight α), calculateYEOverlaps sqrt ws l
        = ((l.map fun o => o.weight * ws.readY o.yIndex o.xIndex).sum,
           sqrt (l.map fun o => (o.weight * ws.readE o.yIndex o.xIndex) ^ 2).sum) := by
    intro l
    rw [calculateYEOverlaps_eq]
    simp only [mul_comm]
  refine ⟨hgen overlaps, fun oldYBins P h => calculateYE_of_counts sqrt ws oldYBins P h, ?_⟩
  intro r1 r2
  have h2 : (calculateYEOverlaps sqrt ws [r1, r2]).2
      = sqrt ((r1.weight * ws.readE r1.yIndex r1.xIndex) ^ 2
          + (r2.weight * ws.readE r2.yIndex r2.xIndex) ^ 2) := by
    rw [hgen]
    simp
  refine ⟨h2, ?_⟩
  intro hex hne heq
  rw [h2] at heq
  rw [heq] at hex
  apply hne
  have : 2 * ((r1.weight * ws.readE r1.yIndex r1.xIndex)
      * (r2.weight * ws.readE r2.yIndex r2.xIndex)) = 0 := by linear_combination hex
  rcases mul_eq_zero.1 this with h | h
  · exact absurd h two_ne_zero
  · exact h


theorem rat_sqrt_25 : Rat.sqrt 25 = 5 := by
  rw [show (25 : ℚ) = 5 * 5 by norm_num, Rat.sqrt_eq]
  norm_num

/-- Witness for C2 on the grid `gridCounts`: two unit-weight records with the
errors 3 and 4 give `E_out = sqrt 25`, not `3 + 4`. -/
theorem counts_quadrature_law_witness :
    gridCounts.isDistribution = false
      ∧ calculateYE Rat.sqrt gridCounts [0, 1, 2] ⟨0, 2, 0, 1⟩
          = calculateYEOverlaps Rat.sqrt gridCounts
              (findIntersections (gridCounts.readX 0) [0, 1, 2] ⟨0, 2, 0, 1⟩)
      ∧ (calculateYEOverlaps Rat.sqrt gridCounts [⟨0, 0, 1⟩, ⟨0, 1, 1⟩]).2
          ≠ 1 * gridCounts.readE 0 0 + 1 * gridCounts.readE 0 1 :=
  ⟨rfl,
   (counts_quadrature_law Rat.sqrt gridCounts []).2.1 [0, 1, 2] ⟨0, 2, 0, 1⟩ rfl,
   ((counts_quadrature_law Rat.sqrt gridCounts []).2.2 ⟨0, 0, 1⟩ ⟨0, 1, 1⟩).2
     (by
       have h : ((1 : ℚ) * gridCounts.readE 0 0) ^ 2 + (1 * gridCounts.readE 0 1) ^ 2 = 25 := by
         norm_num [gridCounts, MatrixWorkspace.readE]
       rw [h, rat_sqrt_25]
       norm_num)
     (by norm_num [gridCounts, MatrixWorkspace.readE])⟩

/-- C3: in distribution mode the aggregation returns
`Y_out = (Σ Y_in[i_k][j_k] * oldWidth_k * w_k) / newWidth` and
`E_out = sqrt (Σ (E_in[i_k][j_k] * oldWidth_k * w_k)^2) / newWidth`, where
`oldWidth_k` is the width of old column `j_k`; for a distribution input
`calculateYE` applies it to the records of the search with
`newWidth = newBoundaries[c+1] - newBoundaries[c]`. -/
theorem distribution_aggregation (sqrt : α → α) (ws : MatrixWorkspace α)
    (overlaps : List (BinWithWeight α)) (newWidth : α) :
    calculateDistYE sqrt ws overlaps newWidth
        = ((overlaps.map fun o => ws.readY o.yIndex o.xIndex
              * ((ws.readX 0).getD (o.xIndex + 1) 0 - (ws.readX 0).getD o.xIndex 0)
              * o.weight).sum / newWidth,
           sqrt (overlaps.map fun o => (ws.readE o.yIndex o.xIndex
              * ((ws.readX 0).getD (o.xIndex + 1) 0 - (ws.readX 0).getD o.xIndex 0)
              * o.weight) ^ 2).sum / newWidth)
      ∧ (∀ (oldYBins newXBins newYBins : List α) (r c : Nat), ws.isDistribution = true →
          calculateYE sqrt ws oldYBins (newBin newXBins newYBins r c)
            = calculateDistYE sqrt ws
                (findIntersections (ws.readX 0) oldYBins (newBin newXBins newYBins r c))
                (newXBins.getD (c + 1) 0 - newXBins.getD c 0)) :=
  ⟨calculateDistYE_eq sqrt ws overlaps newWidth,
   fun oldYBins newXBins newYBins r c h =>
     calculateYE_of_dist sqrt ws oldYBins (newBin newXBins newYBins r c) h⟩

/-- Witness for C3 on the distribution grid `gridDist`. -/
theorem distribution_aggregation_witness :
    gridDist.isDistribution = true
      ∧ calculateYE Rat.sqrt gridDist [0, 1, 2] (newBin [0, 2] [0, 1] 0 0)
          = calculateDistYE Rat.sqrt gridDist
              (findIntersections (gridDist.readX 0) [0, 1, 2] (newBin [0, 2] [0, 1] 0 0))
              (([0, 2] : List ℚ).getD (0 + 1) 0 - ([0, 2] : List ℚ).getD 0 0) :=
  ⟨rfl, (distribution_aggregation Rat.sqrt gridDist [] 1).2 [0, 1, 2] [0, 2] [0, 1] 0 0 rfl⟩

/-- C9: a target cell whose overlap-record list is empty gets `Y_out = 0` and
`E_out = 0`, in counts mode and (for a target cell of nonzero width) in
distribution mode. -/
theorem empty_overlaps_give_zero (sqrt : α → α) (hsqrt : sqrt 0 = 0)
    (ws : MatrixWorkspace α) :
    calculateYEOverlaps sqrt ws [] = (0, 0)
      ∧ (∀ newWidth : α, newWidth ≠ 0 → calculateDistYE sqrt ws [] newWidth = (0, 0))
      ∧ (∀ (oldYBins : List α) (P : ConvexPolygon α), P.xLow < P.xHigh →
          findIntersections (ws.readX 0) oldYBins P = [] →
          calculateYE sqrt ws oldYBins P = (0, 0)) := by
  have h1 : calculateYEOverlaps sqrt ws [] = (0, 0) := by
    simp [calculateYEOverlaps, hsqrt]
  have h2 : ∀ newWidth : α, calculateDistYE sqrt ws [] newWidth = (0, 0) := by
    intro w
    simp [calculateDistYE, hsqrt]
  refine ⟨h1, fun w _ => h2 w, ?_⟩
  intro oldYBins P _ hnil
  unfold calculateYE
  simp only [hnil]
  split_ifs
  · exact h2 _
  · exact h1

/-- Witness for C9: the cell `[5, 6] × [0, 1]` lies outside both example grids. -/
theorem empty_overlaps_give_zero_witness :
    Rat.sqrt 0 = 0
      ∧ calculateYE Rat.sqrt gridCounts [0, 1, 2] ⟨5, 6, 0, 1⟩ = (0, 0)
      ∧ calculateYE Rat.sqrt gridDist [0, 1, 2] ⟨5, 6, 0, 1⟩ = (0, 0) :=
  ⟨rfl,
   (empty_overlaps_give_zero Rat.sqrt rfl gridCounts).2.2 [0, 1, 2] ⟨5, 6, 0, 1⟩
     (by norm_num) (by norm_num [findIntersections, gridCounts, MatrixWorkspace.readX,
        List.range_succ, List.flatMap]),
   (empty_overlaps_give_zero Rat.sqrt rfl gridDist).2.2 [0, 1, 2] ⟨5, 6, 0, 1⟩
     (by norm_num) (by norm_num [findIntersections, gridDist, MatrixWorkspace.readX,
        List.range_succ, List.flatMap])⟩

theorem mem_cellRecords_iff (ax1 ax2 : List α) (P : ConvexPolygon α) (i j : Nat)
    (r : BinWithWeight α) :
    r ∈ cellRecords ax1 ax2 P i j ↔
      (0 < cellOverlap P (oldCell ax1 ax2 i j) ∧
        r = ⟨i, j, cellOverlap P (oldCell ax1 ax2 i j) / (oldCell ax1 ax2 i j).area⟩) := by
  unfold cellRecords
  split_ifs with h
  · simp [h]
  · simp [h]

theorem mem_findIntersections_iff (ax1 ax2 : List α) (P : ConvexPolygon α)
    (r : BinWithWeight α) :
    r ∈ findIntersections ax1 ax2 P ↔
      (r.yIndex < ax2.length - 1 ∧ r.xIndex < ax1.length - 1
        ∧ 0 < cellOverlap P (oldCell ax1 ax2 r.yIndex r.xIndex)
        ∧ r.weight = cellOverlap P (oldCell ax1 ax2 r.yIndex r.xIndex)
            / (oldCell ax1 ax2 r.yIndex r.xIndex).area) := by
  rw [findIntersections_eq]
  simp only [List.mem_flatMap, List.mem_range, mem_cellRecords_iff]
  constructor
  · rintro ⟨i, hi, j, hj, hpos, rfl⟩
    exact ⟨hi, hj, hpos, rfl⟩
  · rintro ⟨hi, hj, hpos, hw⟩
    refine ⟨r.yIndex, hi, r.xIndex, hj, hpos, ?_⟩
    cases r
    simp only at hw
    simp [hw]

/-- C4: the list returned by the search contains a record for the old cell
`(i, j)` if and only if the intersection area of the target rectangle with
that cell is strictly positive, and the weight of the record is that area
divided by the area of the old cell. -/
theorem findIntersections_records (oldAxis1 oldAxis2 : List α) (newPoly : ConvexPolygon α) :
    (∀ i j : Nat, i < oldAxis2.length - 1 → j < oldAxis1.length - 1 →
        ((∃ r ∈ findIntersections oldAxis1 oldAxis2 newPoly, r.yIndex = i ∧ r.xIndex = j)
          ↔ 0 < cellOverlap newPoly (oldCell oldAxis1 oldAxis2 i j)))
      ∧ (∀ r ∈ findIntersections oldAxis1 oldAxis2 newPoly,
          r.yIndex < oldAxis2.length - 1 ∧ r.xIndex < oldAxis1.length - 1
            ∧ r.weight = cellOverlap newPoly (oldCell oldAxis1 oldAxis2 r.yIndex r.xIndex)
                / (oldCell oldAxis1 oldAxis2 r.yIndex r.xIndex).area) := by
  constructor
  · intro i j hi hj
    constructor
    · rintro ⟨r, hr, rfl, rfl⟩
      exact ((mem_findIntersections_iff _ _ _ r).1 hr).2.2.1
    · intro hpos
      refine ⟨⟨i, j, cellOverlap newPoly (oldCell oldAxis1 oldAxis2 i j)
        / (oldCell oldAxis1 oldAxis2 i j).area⟩, ?_, rfl, rfl⟩
      exact (mem_findIntersections_iff _ _ _ _).2 ⟨hi, hj, hpos, rfl⟩
  · intro r hr
    have h := (mem_findIntersections_iff _ _ _ r).1 hr
    exact ⟨h.1, h.2.1, h.2.2.2⟩

/-- Witness for C4: in the unit grid `[0,1,2] × [0,1,2]` the target
`[1/2, 3/2] × [0, 1]` overlaps the old cell `(0, 1)`. -/
theorem findIntersections_records_witness :
    (∃ r ∈ findIntersections [0, 1, 2] [0, 1, 2] (⟨1/2, 3/2, 0, 1⟩ : ConvexPolygon ℚ),
        r.yIndex = 0 ∧ r.xIndex = 1)
      ↔ 0 < cellOverlap (⟨1/2, 3/2, 0, 1⟩ : ConvexPolygon ℚ) (oldCell [0, 1, 2] [0, 1, 2] 0 1) :=
  (findIntersections_records [0, 1, 2] [0, 1, 2] (⟨1/2, 3/2, 0, 1⟩ : ConvexPolygon ℚ)).1 0 1
    (by decide) (by decide)

theorem oldCell_singleton (B : ConvexPolygon α) :
    oldCell [B.xLow, B.xHigh] [B.yLow, B.yHigh] 0 0 = B := rfl

theorem findIntersections_single (A B : ConvexPolygon α) :
    findIntersections [B.xLow, B.xHigh] [B.yLow, B.yHigh] A
      = if 0 < cellOverlap A B then [⟨0, 0, cellOverlap A B / B.area⟩] else [] := by
  rw [findIntersections_eq]
  simp [cellRecords, oldCell_singleton, List.range_succ, List.flatMap]

/-- C10: the overlap of two axis-aligned rectangles is the rectangle
`max(xLow)..min(xHigh)` by `max(yLow)..min(yHigh)`.  When either span is `≤ 0`
the pair is reported as non-overlapping, the area is 0 and the caller (the
search) gets an ordinary empty result; otherwise the area is the product of
the two spans. -/
theorem cellOverlap_contract (A B : ConvexPolygon α) :
    ((min A.xHigh B.xHigh - max A.xLow B.xLow ≤ 0
          ∨ min A.yHigh B.yHigh - max A.yLow B.yLow ≤ 0) →
        chasingEdgeIntersect A B = none ∧ cellOverlap A B = 0
          ∧ findIntersections [B.xLow, B.xHigh] [B.yLow, B.yHigh] A = [])
      ∧ (¬ (min A.xHigh B.xHigh - max A.xLow B.xLow ≤ 0
          ∨ min A.yHigh B.yHigh - max A.yLow B.yLow ≤ 0) →
        chasingEdgeIntersect A B
            = some ⟨max A.xLow B.xLow, min A.xHigh B.xHigh,
                max A.yLow B.yLow, min A.yHigh B.yHigh⟩
          ∧ cellOverlap A B = (min A.xHigh B.xHigh - max A.xLow B.xLow)
              * (min A.yHigh B.yHigh - max A.yLow B.yLow)
          ∧ findIntersections [B.xLow, B.xHigh] [B.yLow, B.yHigh] A
              = [⟨0, 0, cellOverlap A B / B.area⟩]) := by
  constructor
  · intro h
    have h0 : cellOverlap A B = 0 := cellOverlap_of_nonpos A B h
    refine ⟨(chasingEdgeIntersect_none_iff A B).2 h, h0, ?_⟩
    rw [findIntersections_single, h0, if_neg (lt_irrefl _)]
  · intro h
    have hx : 0 < spanX A B := by
      unfold spanX
      by_contra hc
      exact h (Or.inl (not_lt.1 hc))
    have hy : 0 < spanY A B := by
      unfold spanY
      by_contra hc
      exact h (Or.inr (not_lt.1 hc))
    have hc := cellOverlap_of_pos A B hx hy
    refine ⟨hc.1, hc.2, ?_⟩
    rw [findIntersections_single, if_pos ((cellOverlap_pos_iff A B).2 ⟨hx, hy⟩)]

/-- Witness for C10: the unit square and the square `[2, 3] × [0, 1]` are
disjoint. -/
theorem cellOverlap_contract_witness :
    chasingEdgeIntersect (⟨0, 1, 0, 1⟩ : ConvexPolygon ℚ) ⟨2, 3, 0, 1⟩ = none
      ∧ cellOverlap (⟨0, 1, 0, 1⟩ : ConvexPolygon ℚ) ⟨2, 3, 0, 1⟩ = 0
      ∧ findIntersections [2, 3] [0, 1] (⟨0, 1, 0, 1⟩ : ConvexPolygon ℚ) = [] :=
  (cellOverlap_contract (⟨0, 1, 0, 1⟩ : ConvexPolygon ℚ) ⟨2, 3, 0, 1⟩).1
    (Or.inl (by norm_num))

theorem oldCell_ordered (ax1 ax2 : List α) (h1 : ax1.Sorted (· < ·)) (h2 : ax2.Sorted (· < ·))
    (i j : Nat) (hi : i < ax2.length - 1) (hj : j < ax1.length - 1) :
    (oldCell ax1 ax2 i j).xLow < (oldCell ax1 ax2 i j).xHigh
      ∧ (oldCell ax1 ax2 i j).yLow < (oldCell ax1 ax2 i j).yHigh :=
  ⟨getD_lt_succ_of_sorted ax1 h1 j (by omega), getD_lt_succ_of_sorted ax2 h2 i (by omega)⟩

theorem max_zero_spanX_le (P Q : ConvexPolygon α) (hq : Q.xLow ≤ Q.xHigh) :
    max 0 (spanX P Q) ≤ Q.xHigh - Q.xLow := by
  apply max_le
  · linarith
  · unfold spanX
    have h1 := min_le_right P.xHigh Q.xHigh
    have h2 := le_max_right P.xLow Q.xLow
    linarith

theorem max_zero_spanY_le (P Q : ConvexPolygon α) (hq : Q.yLow ≤ Q.yHigh) :
    max 0 (spanY P Q) ≤ Q.yHigh - Q.yLow := by
  apply max_le
  · linarith
  · unfold spanY
    have h1 := min_le_right P.yHigh Q.yHigh
    have h2 := le_max_right P.yLow Q.yLow
    linarith

theorem cellOverlap_le_area (P Q : ConvexPolygon α) (hx : Q.xLow ≤ Q.xHigh)
    (hy : Q.yLow ≤ Q.yHigh) : cellOverlap P Q ≤ Q.area := by
  rw [cellOverlap_eq]
  unfold ConvexPolygon.area
  exact mul_le_mul (max_zero_spanX_le P Q hx) (max_zero_spanY_le P Q hy)
    (le_max_left _ _) (by linarith)

theorem area_pos (Q : ConvexPolygon α) (hx : Q.xLow < Q.xHigh) (hy : Q.yLow < Q.yHigh) :
    0 < Q.area := by
  unfold ConvexPolygon.area
  exact mul_pos (by linarith) (by linarith)

theorem overlapWeight_bounds (P Q : ConvexPolygon α) (hx : Q.xLow < Q.xHigh)
    (hy : Q.yLow < Q.yHigh) : 0 ≤ overlapWeight P Q ∧ overlapWeight P Q ≤ 1 := by
  unfold overlapWeight
  have ha := area_pos Q hx hy
  exact ⟨div_nonneg (cellOverlap_nonneg P Q) ha.le,
    (div_le_one ha).2 (cellOverlap_le_area P Q hx.le hy.le)⟩

/-- C6: for an old grid with strictly increasing row and column boundaries and
a target rectangle with `xLow < xHigh` and `yLow < yHigh`, every record
returned by the search has `0 ≤ weight ≤ 1`. -/
theorem overlap_weight_in_unit_interval (oldAxis1 oldAxis2 : List α)
    (h1 : oldAxis1.Sorted (· < ·)) (h2 : oldAxis2.Sorted (· < ·))
    (newPoly : ConvexPolygon α) (_hx : newPoly.xLow < newPoly.xHigh)
    (_hy : newPoly.yLow < newPoly.yHigh) :
    ∀ r ∈ findIntersections oldAxis1 oldAxis2 newPoly, 0 ≤ r.weight ∧ r.weight ≤ 1 := by
  intro r hr
  obtain ⟨hi, hj, _, hw⟩ := (mem_findIntersections_iff _ _ _ r).1 hr
  have ho := oldCell_ordered oldAxis1 oldAxis2 h1 h2 r.yIndex r.xIndex hi hj
  rw [hw]
  exact overlapWeight_bounds newPoly _ ho.1 ho.2

theorem findIntersections_example :
    findIntersections [0, 1, 2] [0, 1, 2] (⟨1/2, 3/2, 0, 1⟩ : ConvexPolygon ℚ)
      = [⟨0, 0, 1/2⟩, ⟨0, 1, 1/2⟩] := by
  norm_num [findIntersections, chasingEdgeIntersect, ConvexPolygon.area, List.range_succ,
    List.flatMap]

/-- Witness for C6: the first record of the target `[1/2, 3/2] × [0, 1]` in the
unit grid `[0,1,2] × [0,1,2]` has the weight `1/2`. -/
theorem overlap_weight_in_unit_interval_witness :
    (⟨0, 0, 1/2⟩ : BinWithWeight ℚ)
        ∈ findIntersections [0, 1, 2] [0, 1, 2] (⟨1/2, 3/2, 0, 1⟩ : ConvexPolygon ℚ)
      ∧ (0 : ℚ) ≤ (⟨0, 0, 1/2⟩ : BinWithWeight ℚ).weight
      ∧ (⟨0, 0, 1/2⟩ : BinWithWeight ℚ).weight ≤ 1 :=
  have hmem : (⟨0, 0, 1/2⟩ : BinWithWeight ℚ)
      ∈ findIntersections [0, 1, 2] [0, 1, 2] (⟨1/2, 3/2, 0, 1⟩ : ConvexPolygon ℚ) := by
    rw [findIntersections_example]
    exact List.mem_cons_self _ _
  ⟨hmem, overlap_weight_in_unit_interval [0, 1, 2] [0, 1, 2] (by decide) (by decide)
    ⟨1/2, 3/2, 0, 1⟩ (by norm_num) (by norm_num) ⟨0, 0, 1/2⟩ hmem⟩

theorem assignedWeight_findIntersections (ax1 ax2 : List α) (P : ConvexPolygon α) (i j : Nat)
    (hi : i < ax2.length - 1) (hj : j < ax1.length - 1) :
    assignedWeight (findIntersections ax1 ax2 P) i j = overlapWeight P (oldCell ax1 ax2 i j) := by
  unfold assignedWeight
  rw [sum_map_findIntersections]
  have key : ∀ a b : Nat,
      (if 0 < cellOverlap P (oldCell ax1 ax2 a b) then
          (if a = i ∧ b = j then overlapWeight P (oldCell ax1 ax2 a b) else 0)
        else 0)
        = if a = i ∧ b = j then overlapWeight P (oldCell ax1 ax2 i j) else 0 := by
    intro a b
    by_cases hab : a = i ∧ b = j
    · obtain ⟨rfl, rfl⟩ := hab
      by_cases h : 0 < cellOverlap P (oldCell ax1 ax2 a b)
      · simp [h]
      · simp [h, overlapWeight_of_not_pos _ _ h]
    · simp [hab]
  simp only [key]
  rw [Finset.sum_eq_single i]
  · rw [Finset.sum_eq_single j]
    · simp
    · intro b _ hb
      simp [hb]
    · intro h
      exact absurd (Finset.mem_range.2 hj) h
  · intro a _ ha
    apply Finset.sum_eq_zero
    intro b _
    simp [ha]
  · intro h
    exact absurd (Finset.mem_range.2 hi) h

theorem getD_mono_upto (l : List α) (h : l.Sorted (· < ·)) (i j : Nat) (hij : i ≤ j)
    (hj : j ≤ l.length - 1) : l.getD i 0 ≤ l.getD j 0 := by
  rcases Nat.eq_or_lt_of_le hij with heq | hlt
  · rw [heq]
  · exact getD_le_of_sorted l h i j hij (by omega)

/-- The overlap areas of the cells of a target grid with one rectangle `Q` add
up to the area of the intersection of `Q` with the extent of the grid. -/
theorem sum_cellOverlap_newBin (X Y : List α) (hX : X.Sorted (· < ·)) (hY : Y.Sorted (· < ·))
    (Q : ConvexPolygon α) (hqx : Q.xLow ≤ Q.xHigh) (hqy : Q.yLow ≤ Q.yHigh) :
    ∑ r in Finset.range (Y.length - 1), ∑ c in Finset.range (X.length - 1),
        cellOverlap (newBin X Y r c) Q
      = max 0 (min (X.getD (X.length - 1) 0) Q.xHigh - max (X.getD 0 0) Q.xLow)
          * max 0 (min (Y.getD (Y.length - 1) 0) Q.yHigh - max (Y.getD 0 0) Q.yLow) := by
  have hx := sum_max_zero_span (fun k => X.getD k 0) Q.xLow Q.xHigh hqx (X.length - 1)
    (fun i j hij hj => getD_mono_upto X hX i j hij hj)
  have hy := sum_max_zero_span (fun k => Y.getD k 0) Q.yLow Q.yHigh hqy (Y.length - 1)
    (fun i j hij hj => getD_mono_upto Y hY i j hij hj)
  simp only at hx hy
  rw [← hx, ← hy, Finset.sum_mul_sum, Finset.sum_comm]
  apply Finset.sum_congr rfl
  intro r _
  apply Finset.sum_congr rfl
  intro c _
  rw [cellOverlap_eq]
  rfl

theorem sum_overlapWeight_newBin (X Y : List α) (hX : X.Sorted (· < ·))
    (hY : Y.Sorted (· < ·)) (Q : ConvexPolygon α) (hqx : Q.xLow ≤ Q.xHigh)
    (hqy : Q.yLow ≤ Q.yHigh) :
    ∑ r in Finset.range (Y.length - 1), ∑ c in Finset.range (X.length - 1),
        overlapWeight (newBin X Y r c) Q
      = max 0 (min (X.getD (X.length - 1) 0) Q.xHigh - max (X.getD 0 0) Q.xLow)
          * max 0 (min (Y.getD (Y.length - 1) 0) Q.yHigh - max (Y.getD 0 0) Q.yLow)
          / Q.area := by
  rw [← sum_cellOverlap_newBin X Y hX hY Q hqx hqy, Finset.sum_div]
  apply Finset.sum_congr rfl
  intro r _
  rw [Finset.sum_div]
  rfl

theorem max_zero_clip_le (b0 bn lo hi : α) (hlh : lo ≤ hi) :
    max 0 (min bn hi - max b0 lo) ≤ hi - lo := by
  apply max_le
  · linarith
  · have h1 := min_le_right bn hi
    have h2 := le_max_right b0 lo
    linarith

theorem max_zero_clip_eq (b0 bn lo hi : α) (hlh : lo ≤ hi) (h0 : b0 ≤ lo) (hn : hi ≤ bn) :
    max 0 (min bn hi - max b0 lo) = hi - lo := by
  rw [min_eq_right hn, max_eq_right h0, max_eq_right (by linarith)]

theorem sum_overlapWeight_le_one (X Y : List α) (hX : X.Sorted (· < ·))
    (hY : Y.Sorted (· < ·)) (Q : ConvexPolygon α) (hqx : Q.xLow < Q.xHigh)
    (hqy : Q.yLow < Q.yHigh) :
    ∑ r in Finset.range (Y.length - 1), ∑ c in Finset.range (X.length - 1),
        overlapWeight (newBin X Y r c) Q ≤ 1 := by
  rw [sum_overlapWeight_newBin X Y hX hY Q hqx.le hqy.le, div_le_one (area_pos Q hqx hqy)]
  unfold ConvexPolygon.area
  exact mul_le_mul (max_zero_clip_le _ _ _ _ hqx.le) (max_zero_clip_le _ _ _ _ hqy.le)
    (le_max_left _ _) (by linarith)

theorem sum_overlapWeight_eq_one (X Y : List α) (hX : X.Sorted (· < ·))
    (hY : Y.Sorted (· < ·)) (Q : ConvexPolygon α) (hqx : Q.xLow < Q.xHigh)
    (hqy : Q.yLow < Q.yHigh)
    (hxl : ∃ b ∈ X, b ≤ Q.xLow) (hxh : ∃ b ∈ X, Q.xHigh ≤ b)
    (hyl : ∃ b ∈ Y, b ≤ Q.yLow) (hyh : ∃ b ∈ Y, Q.yHigh ≤ b) :
    ∑ r in Finset.range (Y.length - 1), ∑ c in Finset.range (X.length - 1),
        overlapWeight (newBin X Y r c) Q = 1 := by
  obtain ⟨a, ha, ha2⟩ := hxl
  obtain ⟨b, hb, hb2⟩ := hxh
  obtain ⟨c, hc, hc2⟩ := hyl
  obtain ⟨d, hd, hd2⟩ := hyh
  rw [sum_overlapWeight_newBin X Y hX hY Q hqx.le hqy.le,
    max_zero_clip_eq _ _ _ _ hqx.le (le_trans (mem_bounds_of_sorted X hX a ha).1 ha2)
      (le_trans hb2 (mem_bounds_of_sorted X hX b hb).2),
    max_zero_clip_eq _ _ _ _ hqy.le (le_trans (mem_bounds_of_sorted Y hY c hc).1 hc2)
      (le_trans hd2 (mem_bounds_of_sorted Y hY d hd).2)]
  exact div_self (area_pos Q hqx hqy).ne'

/-- C5: for an old cell `(i, j)` of positive width and height and a target grid
with strictly increasing row and column boundaries, the weights that the
search assigns to `(i, j)`, summed over all target cells, are at most 1, and
exactly 1 when the extent of the target grid contains the old cell on both
axes. -/
theorem weights_of_old_cell_sum (oldAxis1 oldAxis2 newXBins newYBins : List α) (i j : Nat)
    (hi : i < oldAxis2.length - 1) (hj : j < oldAxis1.length - 1)
    (hcx : (oldCell oldAxis1 oldAxis2 i j).xLow < (oldCell oldAxis1 oldAxis2 i j).xHigh)
    (hcy : (oldCell oldAxis1 oldAxis2 i j).yLow < (oldCell oldAxis1 oldAxis2 i j).yHigh)
    (hnx : newXBins.Sorted (· < ·)) (hny : newYBins.Sorted (· < ·)) :
    (∑ r in Finset.range (newYBins.length - 1), ∑ c in Finset.range (newXBins.length - 1),
        assignedWeight
          (findIntersections oldAxis1 oldAxis2 (newBin newXBins newYBins r c)) i j) ≤ 1
      ∧ ((∃ b ∈ newXBins, b ≤ (oldCell oldAxis1 oldAxis2 i j).xLow) →
          (∃ b ∈ newXBins, (oldCell oldAxis1 oldAxis2 i j).xHigh ≤ b) →
          (∃ b ∈ newYBins, b ≤ (oldCell oldAxis1 oldAxis2 i j).yLow) →
          (∃ b ∈ newYBins, (oldCell oldAxis1 oldAxis2 i j).yHigh ≤ b) →
          (∑ r in Finset.range (newYBins.length - 1),
            ∑ c in Finset.range (newXBins.length - 1),
              assignedWeight
                (findIntersections oldAxis1 oldAxis2 (newBin newXBins newYBins r c)) i j)
            = 1) := by
  have hsum : (∑ r in Finset.range (newYBins.length - 1),
      ∑ c in Finset.range (newXBins.length - 1),
        assignedWeight (findIntersections oldAxis1 oldAxis2 (newBin newXBins newYBins r c)) i j)
      = ∑ r in Finset.range (newYBins.length - 1), ∑ c in Finset.range (newXBins.length - 1),
          overlapWeight (newBin newXBins newYBins r c) (oldCell oldAxis1 oldAxis2 i j) := by
    apply Finset.sum_congr rfl
    intro r _
    apply Finset.sum_congr rfl
    intro c _
    exact assignedWeight_findIntersections oldAxis1 oldAxis2 _ i j hi hj
  rw [hsum]
  exact ⟨sum_overlapWeight_le_one newXBins newYBins hnx hny _ hcx hcy,
    fun h1 h2 h3 h4 => sum_overlapWeight_eq_one newXBins newYBins hnx hny _ hcx hcy h1 h2 h3 h4⟩


/-- Witness for C5: the old cell `(0, 0)` of the unit grid `[0,1,2] × [0,1,2]`
under the target grid `[0, 1/2, 1, 2] × [0, 1, 2]`. -/
theorem weights_of_old_cell_sum_witness :
    (∑ r in Finset.range (([0, 1, 2] : List ℚ).length - 1),
      ∑ c in Finset.range (([0, 1/2, 1, 2] : List ℚ).length - 1),
        assignedWeight
          (findIntersections ([0, 1, 2] : List ℚ) [0, 1, 2]
            (newBin [0, 1/2, 1, 2] [0, 1, 2] r c)) 0 0)
      = 1 :=
  (weights_of_old_cell_sum ([0, 1, 2] : List ℚ) [0, 1, 2] [0, 1/2, 1, 2] [0, 1, 2] 0 0
      (by decide) (by decide) (by norm_num [oldCell]) (by norm_num [oldCell])
      (by norm_num [List.Sorted]) (by decide)).2
    ⟨0, by simp, by norm_num [oldCell]⟩ ⟨1, by simp, by norm_num [oldCell]⟩
    ⟨0, by simp, by norm_num [oldCell]⟩ ⟨1, by simp, by norm_num [oldCell]⟩

theorem list_sum_eq_sum_getD (l : List α) :
    l.sum = ∑ k in Finset.range l.length, l.getD k 0 := by
  induction l with
  | nil => rfl
  | cons a l ih =>
    rw [List.sum_cons, List.length_cons, Finset.sum_range_succ', ih, add_comm]
    simp

theorem sum_map_eq_sum_get? {β : Type} (L : List β) (f : β → α) :
    (L.map f).sum = ∑ i in Finset.range L.length,
      (match L.get? i with
        | some s => f s
        | none => 0) := by
  induction L with
  | nil => rfl
  | cons a L ih =>
    rw [List.map_cons, List.sum_cons, List.length_cons, Finset.sum_range_succ', ih, add_comm]
    simp

theorem totalY_eq_sum_readY (ws : MatrixWorkspace α) (m : Nat)
    (h : ∀ s ∈ ws.spectra, s.dataY.length = m) :
    totalY ws = ∑ i in Finset.range ws.spectra.length, ∑ j in Finset.range m, ws.readY i j := by
  unfold totalY
  rw [sum_map_eq_sum_get?]
  apply Finset.sum_congr rfl
  intro i _
  unfold MatrixWorkspace.readY
  cases hg : ws.spectra.get? i with
  | none => simp
  | some s =>
    simp only
    rw [list_sum_eq_sum_getD, h s (List.get?_mem hg)]

theorem totalY_exec_spectra (sqrt : α → α) (ws : MatrixWorkspace α)
    (oldYBins newXBins newYBins : List α) (ax : Axis α) (d : Bool) :
    totalY { spectra := (List.range (newYBins.length - 1)).map fun i =>
               execRow sqrt ws oldYBins newXBins newYBins i,
             axis1 := ax, isDistribution := d }
      = ∑ r in Finset.range (newYBins.length - 1), ∑ c in Finset.range (newXBins.length - 1),
          (calculateYE sqrt ws oldYBins (newBin newXBins newYBins r c)).1 := by
  unfold totalY
  simp only [List.map_map]
  rw [sum_map_range]
  apply Finset.sum_congr rfl
  intro r _
  simp only [Function.comp, execRow, List.map_map]
  rw [sum_map_range]
  rfl

theorem calculateYE_counts_fst (sqrt : α → α) (ws : MatrixWorkspace α) (oldYBins : List α)
    (P : ConvexPolygon α) (h : ws.isDistribution = false) :
    (calculateYE sqrt ws oldYBins P).1
      = ∑ i in Finset.range (oldYBins.length - 1),
          ∑ j in Finset.range ((ws.readX 0).length - 1),
            ws.readY i j * overlapWeight P (oldCell (ws.readX 0) oldYBins i j) := by
  rw [calculateYE_of_counts sqrt ws oldYBins P h, calculateYEOverlaps_eq]
  simp only
  rw [sum_map_findIntersections]
  apply Finset.sum_congr rfl
  intro i _
  apply Finset.sum_congr rfl
  intro j _
  split_ifs with hpos
  · rfl
  · rw [overlapWeight_of_not_pos _ _ hpos, mul_zero]

theorem sum_comm_four (s1 s2 s3 s4 : Finset Nat) (f : Nat → Nat → Nat → Nat → α) :
    ∑ r in s1, ∑ c in s2, ∑ i in s3, ∑ j in s4, f r c i j
      = ∑ i in s3, ∑ j in s4, ∑ r in s1, ∑ c in s2, f r c i j := by
  calc ∑ r in s1, ∑ c in s2, ∑ i in s3, ∑ j in s4, f r c i j
      = ∑ r in s1, ∑ i in s3, ∑ c in s2, ∑ j in s4, f r c i j :=
        Finset.sum_congr rfl (fun r _ => Finset.sum_comm)
    _ = ∑ i in s3, ∑ r in s1, ∑ c in s2, ∑ j in s4, f r c i j := Finset.sum_comm
    _ = ∑ i in s3, ∑ r in s1, ∑ j in s4, ∑ c in s2, f r c i j :=
        Finset.sum_congr rfl (fun i _ => Finset.sum_congr rfl (fun r _ => Finset.sum_comm))
    _ = ∑ i in s3, ∑ j in s4, ∑ r in s1, ∑ c in s2, f r c i j :=
        Finset.sum_congr rfl (fun i _ => Finset.sum_comm)

theorem getD_mem_of_lt (l : List α) (k : Nat) (hk : k < l.length) : l.getD k 0 ∈ l := by
  rw [List.getD_eq_getElem l 0 hk]
  exact List.getElem_mem hk

/-- In counts mode the total signal written by the rebin loop is the old
signal weighted, cell by cell, by the total weight the target grid assigns. -/
theorem sum_calculateYE_counts (sqrt : α → α) (ws : MatrixWorkspace α)
    (oldYBins newXBins newYBins : List α) (h : ws.isDistribution = false) :
    ∑ r in Finset.range (newYBins.length - 1), ∑ c in Finset.range (newXBins.length - 1),
        (calculateYE sqrt ws oldYBins (newBin newXBins newYBins r c)).1
      = ∑ i in Finset.range (oldYBins.length - 1),
          ∑ j in Finset.range ((ws.readX 0).length - 1),
            ws.readY i j *
              ∑ r in Finset.range (newYBins.length - 1),
                ∑ c in Finset.range (newXBins.length - 1),
                  overlapWeight (newBin newXBins newYBins r c)
                    (oldCell (ws.readX 0) oldYBins i j) := by
  simp only [calculateYE_counts_fst sqrt ws oldYBins _ h]
  rw [sum_comm_four]
  apply Finset.sum_congr rfl
  intro i _
  apply Finset.sum_congr rfl
  intro j _
  rw [Finset.mul_sum]
  apply Finset.sum_congr rfl
  intro r _
  rw [Finset.mul_sum]

/-- C1: signal conservation in counts mode.  For an input grid that is not a
distribution, whose rows share strictly increasing column boundaries and whose
row boundaries are strictly increasing, and a target grid with strictly
increasing boundaries that covers the extent of the input on both axes and
contains every old boundary, `exec` returns a grid whose `Y` values add up to
the sum of the input `Y` values.  (The proof uses the covering only.) -/
theorem signal_conservation (sqrt : α → α) (createBinBoundaries : List α → List α)
    (ws : MatrixWorkspace α) (values newXBins newYBins : List α)
    (hdist : ws.isDistribution = false)
    (haxis : ws.axis1 = Axis.numeric values)
    (hrows : ws.spectra.length = (createBinBoundaries values).length - 1)
    (hshare : ∀ s ∈ ws.spectra, s.dataX = ws.readX 0)
    (hlen : ∀ s ∈ ws.spectra, s.dataY.length = s.dataX.length - 1)
    (hox : (ws.readX 0).Sorted (· < ·))
    (hoy : (createBinBoundaries values).Sorted (· < ·))
    (hnx : newXBins.Sorted (· < ·)) (hny : newYBins.Sorted (· < ·))
    (hcx : ∀ b ∈ ws.readX 0, (∃ lo ∈ newXBins, lo ≤ b) ∧ ∃ hi ∈ newXBins, b ≤ hi)
    (hcy : ∀ b ∈ createBinBoundaries values,
      (∃ lo ∈ newYBins, lo ≤ b) ∧ ∃ hi ∈ newYBins, b ≤ hi)
    (_hfx : ∀ b ∈ ws.readX 0, b ∈ newXBins)
    (_hfy : ∀ b ∈ createBinBoundaries values, b ∈ newYBins) :
    ∃ out, exec sqrt createBinBoundaries ws newXBins newYBins = Except.ok out
      ∧ totalY out = totalY ws := by
  unfold exec
  rw [haxis]
  refine ⟨_, rfl, ?_⟩
  rw [totalY_exec_spectra, sum_calculateYE_counts sqrt ws _ newXBins newYBins hdist,
    totalY_eq_sum_readY ws ((ws.readX 0).length - 1)
      (fun s hs => by rw [hlen s hs, hshare s hs]), hrows]
  apply Finset.sum_congr rfl
  intro i hi
  apply Finset.sum_congr rfl
  intro j hj
  have hi2 := Finset.mem_range.1 hi
  have hj2 := Finset.mem_range.1 hj
  have ho := oldCell_ordered (ws.readX 0) (createBinBoundaries values) hox hoy i j hi2 hj2
  have hxl := hcx _ (getD_mem_of_lt (ws.readX 0) j (by omega))
  have hxh := hcx _ (getD_mem_of_lt (ws.readX 0) (j + 1) (by omega))
  have hyl := hcy _ (getD_mem_of_lt (createBinBoundaries values) i (by omega))
  have hyh := hcy _ (getD_mem_of_lt (createBinBoundaries values) (i + 1) (by omega))
  rw [sum_overlapWeight_eq_one newXBins newYBins hnx hny _ ho.1 ho.2 hxl.1 hxh.2 hyl.1 hyh.2,
    mul_one]


/-- Witness for C1: `gridCounts` rebinned onto `[0, 1/2, 1, 2] × [0, 1, 3/2, 2]`. -/
theorem signal_conservation_witness :
    ∃ out, exec Rat.sqrt id gridCounts [0, 1/2, 1, 2] [0, 1, 3/2, 2] = Except.ok out
      ∧ totalY out = totalY gridCounts :=
  signal_conservation Rat.sqrt id gridCounts [0, 1, 2] [0, 1/2, 1, 2] [0, 1, 3/2, 2]
    rfl rfl (by decide)
    (by intro s hs; simp [gridCounts] at hs; rcases hs with rfl | rfl <;> rfl)
    (by intro s hs; simp [gridCounts] at hs; rcases hs with rfl | rfl <;> rfl)
    (by decide) (by decide) (by norm_num [List.Sorted]) (by norm_num [List.Sorted])
    (by
      intro b hb
      simp [gridCounts, MatrixWorkspace.readX] at hb
      refine ⟨⟨0, by simp, ?_⟩, ⟨2, by simp, ?_⟩⟩ <;> rcases hb with rfl | rfl | rfl <;> norm_num)
    (by
      intro b hb
      simp at hb
      refine ⟨⟨0, by simp, ?_⟩, ⟨2, by simp, ?_⟩⟩ <;> rcases hb with rfl | rfl | rfl <;> norm_num)
    (by
      intro b hb
      simp [gridCounts, MatrixWorkspace.readX] at hb
      rcases hb with rfl | rfl | rfl <;> simp)
    (by
      intro b hb
      simp at hb
      rcases hb with rfl | rfl | rfl <;> simp)

theorem calculateYE_of_nil (sqrt : α → α) (hsqrt : sqrt 0 = 0) (ws : MatrixWorkspace α)
    (oldYBins : List α) (P : ConvexPolygon α)
    (hnil : findIntersections (ws.readX 0) oldYBins P = []) :
    calculateYE sqrt ws oldYBins P = (0, 0) := by
  unfold calculateYE
  simp only [hnil]
  split_ifs
  · simp [calculateDistYE, hsqrt]
  · simp [calculateYEOverlaps, hsqrt]

theorem findIntersections_nil_of_apart (ax1 ax2 : List α) (P : ConvexPolygon α)
    (h : ∀ i j, i < ax2.length - 1 → j < ax1.length - 1 →
      spanX P (oldCell ax1 ax2 i j) ≤ 0 ∨ spanY P (oldCell ax1 ax2 i j) ≤ 0) :
    findIntersections ax1 ax2 P = [] := by
  rw [findIntersections_eq]
  apply flatMap_nil_of_forall
  intro i hi
  apply flatMap_nil_of_forall
  intro j hj
  exact cellRecords_of_nonpos ax1 ax2 P i j (h i j (List.mem_range.1 hi) (List.mem_range.1 hj))

/-- A target cell of a grid that is apart from the old grid on one axis
overlaps no old cell. -/
theorem findIntersections_newBin_apart (ax1 ax2 X Y : List α) (r c : Nat)
    (hr : r < Y.length - 1) (hc : c < X.length - 1)
    (h : (∀ b ∈ ax1, ∀ t ∈ X, t < b) ∨ (∀ b ∈ ax1, ∀ t ∈ X, b < t)
      ∨ (∀ b ∈ ax2, ∀ t ∈ Y, t < b) ∨ (∀ b ∈ ax2, ∀ t ∈ Y, b < t)) :
    findIntersections ax1 ax2 (newBin X Y r c) = [] := by
  apply findIntersections_nil_of_apart
  intro i j hi hj
  rcases h with h | h | h | h
  · left
    exact (spanX_neg_of_reject _ _ (Or.inr
      (h _ (getD_mem_of_lt ax1 j (by omega)) _ (getD_mem_of_lt X (c + 1) (by omega))))).le
  · left
    exact (spanX_neg_of_reject _ _ (Or.inl
      (h _ (getD_mem_of_lt ax1 (j + 1) (by omega)) _ (getD_mem_of_lt X c (by omega))))).le
  · right
    exact (spanY_neg_of_reject _ _ (Or.inr
      (h _ (getD_mem_of_lt ax2 i (by omega)) _ (getD_mem_of_lt Y (r + 1) (by omega))))).le
  · right
    exact (spanY_neg_of_reject _ _ (Or.inl
      (h _ (getD_mem_of_lt ax2 (i + 1) (by omega)) _ (getD_mem_of_lt Y r (by omega))))).le

/-- C8: for a target grid with strictly increasing boundaries whose extent is
disjoint from the coordinate range of the input on the row axis or on the
column axis, `exec` completes without error and every output cell has
`Y_out = 0` and `E_out = 0`. -/
theorem zero_overlap_rebin (sqrt : α → α) (hsqrt : sqrt 0 = 0)
    (createBinBoundaries : List α → List α) (ws : MatrixWorkspace α)
    (values newXBins newYBins : List α)
    (haxis : ws.axis1 = Axis.numeric values)
    (_hnx : newXBins.Sorted (· < ·)) (_hny : newYBins.Sorted (· < ·))
    (hout : (∀ b ∈ ws.readX 0, ∀ t ∈ newXBins, t < b)
      ∨ (∀ b ∈ ws.readX 0, ∀ t ∈ newXBins, b < t)
      ∨ (∀ b ∈ createBinBoundaries values, ∀ t ∈ newYBins, t < b)
      ∨ (∀ b ∈ createBinBoundaries values, ∀ t ∈ newYBins, b < t)) :
    ∃ out, exec sqrt createBinBoundaries ws newXBins newYBins = Except.ok out
      ∧ out.spectra.length = newYBins.length - 1
      ∧ ∀ s ∈ out.spectra, s.dataY.length = newXBins.length - 1
          ∧ s.dataE.length = newXBins.length - 1
          ∧ (∀ y ∈ s.dataY, y = 0) ∧ (∀ e ∈ s.dataE, e = 0) := by
  unfold exec
  rw [haxis]
  refine ⟨_, rfl, by simp, ?_⟩
  intro s hs
  simp only [List.mem_map, List.mem_range] at hs
  obtain ⟨r, hr, rfl⟩ := hs
  have hz : ∀ c, c < newXBins.length - 1 →
      calculateYE sqrt ws (createBinBoundaries values) (newBin newXBins newYBins r c)
        = (0, 0) := by
    intro c hc
    exact calculateYE_of_nil sqrt hsqrt ws _ _
      (findIntersections_newBin_apart _ _ newXBins newYBins r c hr hc hout)
  refine ⟨by simp [execRow], by simp [execRow], ?_, ?_⟩
  · intro y hy
    simp only [execRow, List.mem_map, List.mem_range] at hy
    obtain ⟨p, ⟨c, hc, rfl⟩, rfl⟩ := hy
    rw [hz c hc]
  · intro e he
    simp only [execRow, List.mem_map, List.mem_range] at he
    obtain ⟨p, ⟨c, hc, rfl⟩, rfl⟩ := he
    rw [hz c hc]

/-- Witness for C8: `gridDist` rebinned onto `[5, 6, 7] × [0, 1, 2]`, which lies
to the right of the input. -/
theorem zero_overlap_rebin_witness :
    ∃ out, exec Rat.sqrt id gridDist [5, 6, 7] [0, 1, 2] = Except.ok out
      ∧ out.spectra.length = ([0, 1, 2] : List ℚ).length - 1
      ∧ ∀ s ∈ out.spectra, s.dataY.length = ([5, 6, 7] : List ℚ).length - 1
          ∧ s.dataE.length = ([5, 6, 7] : List ℚ).length - 1
          ∧ (∀ y ∈ s.dataY, y = 0) ∧ (∀ e ∈ s.dataE, e = 0) :=
  zero_overlap_rebin Rat.sqrt rfl id gridDist [0, 1, 2] [5, 6, 7] [0, 1, 2] rfl
    (by decide) (by decide)
    (Or.inr (Or.inl (by
      intro b hb t ht
      simp [gridDist, MatrixWorkspace.readX] at hb
      simp at ht
      rcases hb with rfl | rfl | rfl <;> rcases ht with rfl | rfl | rfl <;> norm_num)))

theorem flatMap_range_single {γ : Type} (n : Nat) (g : Nat → List γ) (i : Nat) (hi : i < n)
    (h : ∀ k, k < n → k ≠ i → g k = []) : (List.range n).flatMap g = g i := by
  induction n with
  | zero => exact absurd hi (Nat.not_lt_zero i)
  | succ n ih =>
    rw [List.range_succ, List.flatMap_append]
    simp only [List.flatMap_cons, List.flatMap_nil, List.append_nil]
    rcases Nat.lt_or_ge i n with hlt | hge
    · rw [ih hlt (fun k hk hne => h k (Nat.lt_succ_of_lt hk) hne),
        h n (Nat.lt_succ_self n) (Nat.ne_of_gt hlt), List.append_nil]
    · have hin : i = n := le_antisymm (Nat.lt_succ_iff.1 hi) hge
      rw [hin, flatMap_nil_of_forall (List.range n) g
        (fun k hk => h k (Nat.lt_succ_of_lt (List.mem_range.1 hk))
          (by rw [hin]; exact Nat.ne_of_lt (List.mem_range.1 hk))), List.nil_append]

theorem span_self_nonpos_of_ne (l : List α) (hl : l.Sorted (· < ·)) (j k : Nat)
    (hj : j < l.length - 1) (hk : k < l.length - 1) (hne : k ≠ j) :
    min (l.getD (j + 1) 0) (l.getD (k + 1) 0) - max (l.getD j 0) (l.getD k 0) ≤ 0 := by
  rcases Nat.lt_or_gt_of_ne hne with hlt | hgt
  · have h1 := getD_le_of_sorted l hl (k + 1) j hlt (by omega)
    have h2 := min_le_right (l.getD (j + 1) 0) (l.getD (k + 1) 0)
    have h3 := le_max_left (l.getD j 0) (l.getD k 0)
    linarith
  · have h1 := getD_le_of_sorted l hl (j + 1) k hgt (by omega)
    have h2 := min_le_left (l.getD (j + 1) 0) (l.getD (k + 1) 0)
    have h3 := le_max_right (l.getD j 0) (l.getD k 0)
    linarith

theorem cellOverlap_self (Q : ConvexPolygon α) (hx : Q.xLow < Q.xHigh) (hy : Q.yLow < Q.yHigh) :
    cellOverlap Q Q = Q.area := by
  have hsx : spanX Q Q = Q.xHigh - Q.xLow := by simp [spanX]
  have hsy : spanY Q Q = Q.yHigh - Q.yLow := by simp [spanY]
  rw [(cellOverlap_of_pos Q Q (by rw [hsx]; linarith) (by rw [hsy]; linarith)).2, hsx, hsy]
  rfl

/-- Rebinning onto the grid's own boundaries: each target cell meets exactly
its own old cell, with weight 1. -/
theorem findIntersections_identity (ax1 ax2 : List α) (h1 : ax1.Sorted (· < ·))
    (h2 : ax2.Sorted (· < ·)) (i j : Nat) (hi : i < ax2.length - 1) (hj : j < ax1.length - 1) :
    findIntersections ax1 ax2 (newBin ax1 ax2 i j) = [⟨i, j, 1⟩] := by
  have ho := oldCell_ordered ax1 ax2 h1 h2 i j hi hj
  rw [findIntersections_eq, flatMap_range_single _ _ i hi, flatMap_range_single _ _ j hj]
  · have hsame : newBin ax1 ax2 i j = oldCell ax1 ax2 i j := rfl
    unfold cellRecords
    rw [hsame, cellOverlap_self _ ho.1 ho.2, if_pos (area_pos _ ho.1 ho.2),
      div_self (area_pos _ ho.1 ho.2).ne']
  · intro k hk hne
    exact cellRecords_of_nonpos ax1 ax2 _ i k
      (Or.inl (span_self_nonpos_of_ne ax1 h1 j k hj hk hne))
  · intro k hk hne
    apply flatMap_nil_of_forall
    intro c _
    exact cellRecords_of_nonpos ax1 ax2 _ k c
      (Or.inr (span_self_nonpos_of_ne ax2 h2 i k hi hk hne))

theorem exec_readY (sqrt : α → α) (ws : MatrixWorkspace α)
    (oldYBins newXBins newYBins : List α) (ax : Axis α) (d : Bool) (i j : Nat)
    (hi : i < newYBins.length - 1) (hj : j < newXBins.length - 1) :
    MatrixWorkspace.readY
        { spectra := (List.range (newYBins.length - 1)).map fun i =>
            execRow sqrt ws oldYBins newXBins newYBins i,
          axis1 := ax, isDistribution := d } i j
      = (calculateYE sqrt ws oldYBins (newBin newXBins newYBins i j)).1 := by
  unfold MatrixWorkspace.readY
  simp [hi, execRow, hj, List.getD_eq_getElem?_getD]

theorem exec_readE (sqrt : α → α) (ws : MatrixWorkspace α)
    (oldYBins newXBins newYBins : List α) (ax : Axis α) (d : Bool) (i j : Nat)
    (hi : i < newYBins.length - 1) (hj : j < newXBins.length - 1) :
    MatrixWorkspace.readE
        { spectra := (List.range (newYBins.length - 1)).map fun i =>
            execRow sqrt ws oldYBins newXBins newYBins i,
          axis1 := ax, isDistribution := d } i j
      = (calculateYE sqrt ws oldYBins (newBin newXBins newYBins i j)).2 := by
  unfold MatrixWorkspace.readE
  simp [hi, execRow, hj, List.getD_eq_getElem?_getD]


theorem calculateYE_identity (sqrt : α → α) (hsqrt : ∀ x : α, sqrt (x ^ 2) = |x|)
    (ws : MatrixWorkspace α) (oldYBins : List α) (hox : (ws.readX 0).Sorted (· < ·))
    (hoy : oldYBins.Sorted (· < ·)) (i j : Nat) (hi : i < oldYBins.length - 1)
    (hj : j < (ws.readX 0).length - 1) :
    calculateYE sqrt ws oldYBins (newBin (ws.readX 0) oldYBins i j)
      = (ws.readY i j, |ws.readE i j|) := by
  have hw : 0 < (ws.readX 0).getD (j + 1) 0 - (ws.readX 0).getD j 0 :=
    sub_pos.2 (getD_lt_succ_of_sorted _ hox j (by omega))
  unfold calculateYE
  simp only [findIntersections_identity (ws.readX 0) oldYBins hox hoy i j hi hj]
  split_ifs with hd
  · rw [calculateDistYE_eq]
    have hwidth : (newBin (ws.readX 0) oldYBins i j).xHigh
        - (newBin (ws.readX 0) oldYBins i j).xLow
        = (ws.readX 0).getD (j + 1) 0 - (ws.readX 0).getD j 0 := rfl
    simp only [List.map_cons, List.map_nil, List.sum_cons, List.sum_nil, add_zero, mul_one,
      hwidth, hsqrt]
    rw [abs_mul, abs_of_pos hw, mul_div_assoc, mul_div_assoc, div_self hw.ne', mul_one, mul_one]
  · rw [calculateYEOverlaps_eq]
    simp only [List.map_cons, List.map_nil, List.sum_cons, List.sum_nil, add_zero, mul_one,
      hsqrt]

/-- When no stored error of a grid is negative, no error read from it is. -/
theorem readE_nonneg (ws : MatrixWorkspace α)
    (hE : ∀ s ∈ ws.spectra, ∀ e ∈ s.dataE, 0 ≤ e) (i j : Nat) : 0 ≤ ws.readE i j := by
  unfold MatrixWorkspace.readE
  cases hs : ws.spectra.get? i with
  | none => exact le_refl 0
  | some s =>
    have hmem : s ∈ ws.spectra := List.get?_mem hs
    show 0 ≤ s.dataE.getD j 0
    by_cases hj : j < s.dataE.length
    · rw [List.getD_eq_getElem _ _ hj]
      exact hE s hmem _ (List.getElem_mem hj)
    · rw [List.getD_eq_default _ _ (not_lt.1 hj)]

/-- C7: rebinning a grid (counts or distribution) whose errors are standard
deviations, so none of them negative, and whose row and column boundaries are
strictly increasing, onto its own boundaries succeeds, matches every target
cell with exactly one old cell, with weight 1, and yields
`Y_out[i][j] = Y_in[i][j]` and `E_out[i][j] = E_in[i][j]` for every cell. -/
theorem identity_rebin (sqrt : α → α) (hsqrt : ∀ x : α, sqrt (x ^ 2) = |x|)
    (createBinBoundaries : List α → List α) (ws : MatrixWorkspace α) (values : List α)
    (haxis : ws.axis1 = Axis.numeric values)
    (hox : (ws.readX 0).Sorted (· < ·))
    (hoy : (createBinBoundaries values).Sorted (· < ·))
    (hE : ∀ s ∈ ws.spectra, ∀ e ∈ s.dataE, 0 ≤ e) :
    ∃ out, exec sqrt createBinBoundaries ws (ws.readX 0) (createBinBoundaries values)
        = Except.ok out
      ∧ ∀ i j, i < (createBinBoundaries values).length - 1 → j < (ws.readX 0).length - 1 →
          findIntersections (ws.readX 0) (createBinBoundaries values)
              (newBin (ws.readX 0) (createBinBoundaries values) i j) = [⟨i, j, 1⟩]
            ∧ out.readY i j = ws.readY i j
            ∧ out.readE i j = ws.readE i j := by
  unfold exec
  rw [haxis]
  refine ⟨_, rfl, ?_⟩
  intro i j hi hj
  have hc := calculateYE_identity sqrt hsqrt ws (createBinBoundaries values) hox hoy i j hi hj
  refine ⟨findIntersections_identity _ _ hox hoy i j hi hj, ?_, ?_⟩
  · rw [exec_readY sqrt ws _ _ _ _ _ i j hi hj, hc]
  · rw [exec_readE sqrt ws _ _ _ _ _ i j hi hj, hc]
    exact abs_of_nonneg (readE_nonneg ws hE i j)

theorem rat_sqrt_sq (x : ℚ) : Rat.sqrt (x ^ 2) = |x| := by
  rw [sq, Rat.sqrt_eq]

/-- Witness for C7: `gridDist`, whose errors are `3, 4, 1, 2`, rebinned onto
its own boundaries. -/
theorem identity_rebin_witness :
    (∀ s ∈ gridDist.spectra, ∀ e ∈ s.dataE, (0 : ℚ) ≤ e)
      ∧ ∃ out, exec Rat.sqrt id gridDist (gridDist.readX 0) (id [0, 1, 2]) = Except.ok out
        ∧ ∀ i j, i < (id ([0, 1, 2] : List ℚ)).length - 1 →
            j < (gridDist.readX 0).length - 1 →
            findIntersections (gridDist.readX 0) (id [0, 1, 2])
                (newBin (gridDist.readX 0) (id [0, 1, 2]) i j) = [⟨i, j, 1⟩]
              ∧ out.readY i j = gridDist.readY i j
              ∧ out.readE i j = gridDist.readE i j :=
  ⟨by decide,
    identity_rebin Rat.sqrt rat_sqrt_sq id gridDist [0, 1, 2] rfl (by decide) (by decide)
      (by decide)⟩

theorem cellOverlap_of_degenerate (P Q : ConvexPolygon α)
    (hdeg : Q.xLow = Q.xHigh ∨ Q.yLow = Q.yHigh) : cellOverlap P Q = 0 := by
  apply cellOverlap_of_nonpos
  rcases hdeg with h | h
  · left
    have h1 := max_zero_spanX_le P Q h.le
    have h2 := le_max_right 0 (spanX P Q)
    linarith
  · right
    have h1 := max_zero_spanY_le P Q h.le
    have h2 := le_max_right 0 (spanY P Q)
    linarith

theorem no_record_of_zero_overlap (ax1 ax2 : List α) (P : ConvexPolygon α) (i j : Nat)
    (h0 : cellOverlap P (oldCell ax1 ax2 i j) = 0) :
    ∀ r ∈ findIntersections ax1 ax2 P, ¬ (r.yIndex = i ∧ r.xIndex = j) := by
  intro r hr hij
  have hpos := ((mem_findIntersections_iff ax1 ax2 P r).1 hr).2.2.1
  rw [hij.1, hij.2, h0] at hpos
  exact lt_irrefl _ hpos

theorem assignedWeight_eq_zero (l : List (BinWithWeight α)) (i j : Nat)
    (h : ∀ r ∈ l, ¬ (r.yIndex = i ∧ r.xIndex = j)) : assignedWeight l i j = 0 := by
  unfold assignedWeight
  apply List.sum_eq_zero
  intro x hx
  obtain ⟨r, hr, rfl⟩ := List.mem_map.1 hx
  rw [if_neg (h r hr)]

/-- The value of a new bin depends on the input signal and error only at the
old cells that have a record. -/
theorem calculateYE_congr (sqrt : α → α) (ws1 ws2 : MatrixWorkspace α) (oldYBins : List α)
    (P : ConvexPolygon α) (hd : ws1.isDistribution = ws2.isDistribution)
    (hx : ws1.readX 0 = ws2.readX 0)
    (h : ∀ r ∈ findIntersections (ws1.readX 0) oldYBins P,
      ws1.readY r.yIndex r.xIndex = ws2.readY r.yIndex r.xIndex
        ∧ ws1.readE r.yIndex r.xIndex = ws2.readE r.yIndex r.xIndex) :
    calculateYE sqrt ws1 oldYBins P = calculateYE sqrt ws2 oldYBins P := by
  unfold calculateYE
  simp only [← hx, ← hd]
  have hY : ∀ (w : BinWithWeight α → α),
      (findIntersections (ws1.readX 0) oldYBins P).map
          (fun o => ws1.readY o.yIndex o.xIndex * w o)
        = (findIntersections (ws1.readX 0) oldYBins P).map
          (fun o => ws2.readY o.yIndex o.xIndex * w o) := by
    intro w
    apply List.map_congr_left
    intro o ho
    rw [(h o ho).1]
  have hE : ∀ (w : BinWithWeight α → α),
      (findIntersections (ws1.readX 0) oldYBins P).map
          (fun o => (ws1.readE o.yIndex o.xIndex * w o) ^ 2)
        = (findIntersections (ws1.readX 0) oldYBins P).map
          (fun o => (ws2.readE o.yIndex o.xIndex * w o) ^ 2) := by
    intro w
    apply List.map_congr_left
    intro o ho
    rw [(h o ho).2]
  split_ifs
  · rw [calculateDistYE_eq, calculateDistYE_eq, ← hx]
    have h1 := hY (fun o => ((ws1.readX 0).getD (o.xIndex + 1) 0 - (ws1.readX 0).getD o.xIndex 0)
      * o.weight)
    have h2 := hE (fun o => ((ws1.readX 0).getD (o.xIndex + 1) 0 - (ws1.readX 0).getD o.xIndex 0)
      * o.weight)
    simp only [← mul_assoc] at h1 h2
    rw [h1, h2]
  · rw [calculateYEOverlaps_eq, calculateYEOverlaps_eq, hY (fun o => o.weight),
      hE (fun o => o.weight)]

/-- C11: a zero-area old cell (two equal consecutive boundaries on either
axis) never gets a record from the search, whatever the target rectangle, so
its weight is zero and the signal and error of every new bin are independent
of the signal and error stored in that cell. -/
theorem degenerate_cell_skipped (sqrt : α → α) (oldAxis1 oldAxis2 : List α)
    (newPoly : ConvexPolygon α) (i j : Nat)
    (hdeg : (oldCell oldAxis1 oldAxis2 i j).xLow = (oldCell oldAxis1 oldAxis2 i j).xHigh
      ∨ (oldCell oldAxis1 oldAxis2 i j).yLow = (oldCell oldAxis1 oldAxis2 i j).yHigh) :
    (∀ r ∈ findIntersections oldAxis1 oldAxis2 newPoly, ¬ (r.yIndex = i ∧ r.xIndex = j))
      ∧ assignedWeight (findIntersections oldAxis1 oldAxis2 newPoly) i j = 0
      ∧ ∀ ws1 ws2 : MatrixWorkspace α, ws1.readX 0 = oldAxis1 → ws2.readX 0 = oldAxis1 →
          ws1.isDistribution = ws2.isDistribution →
          (∀ i2 j2, ¬ (i2 = i ∧ j2 = j) →
            ws1.readY i2 j2 = ws2.readY i2 j2 ∧ ws1.readE i2 j2 = ws2.readE i2 j2) →
          calculateYE sqrt ws1 oldAxis2 newPoly = calculateYE sqrt ws2 oldAxis2 newPoly := by
  have hno := no_record_of_zero_overlap oldAxis1 oldAxis2 newPoly i j
    (cellOverlap_of_degenerate newPoly _ hdeg)
  refine ⟨hno, assignedWeight_eq_zero _ i j hno, ?_⟩
  intro ws1 ws2 h1 h2 hd hagree
  apply calculateYE_congr sqrt ws1 ws2 oldAxis2 newPoly hd (h1.trans h2.symm)
  intro r hr
  rw [h1] at hr
  exact hagree r.yIndex r.xIndex (hno r hr)

/-- Witness for C11: the old column boundaries `[0, 1, 1, 2]` have a zero-width
cell in column 1; the target `[0, 2] × [0, 1]` gives it no weight. -/
theorem degenerate_cell_skipped_witness :
    assignedWeight
      (findIntersections ([0, 1, 1, 2] : List ℚ) [0, 1] (⟨0, 2, 0, 1⟩ : ConvexPolygon ℚ)) 0 1
      = 0 :=
  (degenerate_cell_skipped Rat.sqrt ([0, 1, 1, 2] : List ℚ) [0, 1] ⟨0, 2, 0, 1⟩ 0 1
    (Or.inl rfl)).2.1

/-- C12: for an accepted input grid (numeric row axis) and target boundary
arrays with at least two entries each, the grid returned by `exec` has
`newYBins.length - 1` rows, every row has `newXBins.length - 1` cells (in `Y`
and in `E`) over the boundaries `newXBins`, and the distribution flag of the
output equals that of the input. -/
theorem output_shape_and_flag (sqrt : α → α) (createBinBoundaries : List α → List α)
    (ws : MatrixWorkspace α) (values newXBins newYBins : List α)
    (haxis : ws.axis1 = Axis.numeric values)
    (_hx : 2 ≤ newXBins.length) (_hy : 2 ≤ newYBins.length) :
    ∃ out, exec sqrt createBinBoundaries ws newXBins newYBins = Except.ok out
      ∧ out.spectra.length = newYBins.length - 1
      ∧ (∀ s ∈ out.spectra, s.dataX = newXBins ∧ s.dataY.length = newXBins.length - 1
          ∧ s.dataE.length = newXBins.length - 1)
      ∧ out.isDistribution = ws.isDistribution := by
  unfold exec
  rw [haxis]
  refine ⟨_, rfl, by simp, ?_, rfl⟩
  intro s hs
  simp only [List.mem_map, List.mem_range] at hs
  obtain ⟨r, _, rfl⟩ := hs
  simp [execRow]

/-- Witness for C12: `gridDist` rebinned onto `[0, 1/2, 1, 2] × [0, 2]`. -/
theorem output_shape_and_flag_witness :
    ∃ out, exec Rat.sqrt id gridDist [0, 1/2, 1, 2] [0, 2] = Except.ok out
      ∧ out.spectra.length = ([0, 2] : List ℚ).length - 1
      ∧ (∀ s ∈ out.spectra, s.dataX = [0, 1/2, 1, 2]
          ∧ s.dataY.length = ([0, 1/2, 1, 2] : List ℚ).length - 1
          ∧ s.dataE.length = ([0, 1/2, 1, 2] : List ℚ).length - 1)
      ∧ out.isDistribution = gridDist.isDistribution :=
  output_shape_and_flag Rat.sqrt id gridDist [0, 1, 2] [0, 1/2, 1, 2] [0, 2] rfl
    (by decide) (by decide)

/-- C13 (as amended): `exec` fails with the invalid-argument error exactly when
the row axis of the input is not numeric, whatever the target boundaries, so
before any output cell is computed; for a numeric row axis it returns a grid,
whether or not the axis values are strictly ordered. -/
theorem axis_validation (sqrt : α → α) (createBinBoundaries : List α → List α)
    (ws : MatrixWorkspace α) (newXBins newYBins : List α) :
    (ws.axis1 = Axis.other →
        exec sqrt createBinBoundaries ws newXBins newYBins
          = Except.error RebinError.invalidArgument)
      ∧ (∀ values, ws.axis1 = Axis.numeric values →
          ∃ out, exec sqrt createBinBoundaries ws newXBins newYBins = Except.ok out) := by
  constructor
  · intro h
    unfold exec
    rw [h]
  · intro values h
    unfold exec
    rw [h]
    exact ⟨_, rfl⟩

/-- Witness for C13: a grid with a non-numeric row axis is rejected, the grid
`gridCounts` with a numeric row axis is not. -/
theorem axis_validation_witness :
    exec Rat.sqrt id gridOtherAxis [0, 1] [0, 1] = Except.error RebinError.invalidArgument
      ∧ ∃ out, exec Rat.sqrt id gridCounts [0, 1] [0, 1] = Except.ok out :=
  ⟨(axis_validation Rat.sqrt id gridOtherAxis [0, 1] [0, 1]).1 rfl,
   (axis_validation Rat.sqrt id gridCounts [0, 1] [0, 1]).2 [0, 1, 2] rfl⟩

/-- Counterexample to C13 as stated: the row axis of `gridUnorderedAxis` is
numeric with the values `[0, 2, 1]`, which are not strictly ordered in either
direction, and `exec` does not fail. -/
theorem axis_validation_counterexample :
    gridUnorderedAxis.axis1 = Axis.numeric [0, 2, 1]
      ∧ ¬ (id ([0, 2, 1] : List ℚ)).Sorted (· < ·)
      ∧ ¬ (id ([0, 2, 1] : List ℚ)).Sorted (· > ·)
      ∧ ∃ out, exec Rat.sqrt id gridUnorderedAxis [0, 1] [0, 1] = Except.ok out :=
  ⟨rfl, by decide, by decide, _, rfl⟩

theorem getD_set_eq (l : List α) (j k : Nat) (a : α) :
    (l.set j a).getD k 0 = if j = k ∧ j < l.length then a else l.getD k 0 := by
  simp only [List.getD_eq_getElem?_getD, List.getElem?_set]
  by_cases hjk : j = k
  · subst hjk
    by_cases hj : j < l.length
    · simp [hj]
    · have hn : l[j]? = none := List.getElem?_eq_none (not_lt.1 hj)
      simp [hj, hn]
  · simp [hjk]

theorem list_eq_of_getD_eq (l1 l2 : List α) (hlen : l1.length = l2.length)
    (h : ∀ k, k < l1.length → l1.getD k 0 = l2.getD k 0) : l1 = l2 := by
  apply List.ext_getElem hlen
  intro k h1 h2
  have := h k h1
  rwa [List.getD_eq_getElem l1 0 h1, List.getD_eq_getElem l2 0 h2] at this

/-- The divisor applied to bin `j` of a row with the boundaries `X`. -/
theorem makeDistributionBin_eq (forwards : Bool) (s : Spectrum α) (j : Nat) :
    makeDistributionBin forwards s j
      = { s with
          dataY := s.dataY.set j (s.dataY.getD j 0 /
            (if forwards then |s.dataX.getD (j + 1) 0 - s.dataX.getD j 0|
              else 1 / |s.dataX.getD (j + 1) 0 - s.dataX.getD j 0|))
          dataE := s.dataE.set j (s.dataE.getD j 0 /
            (if forwards then |s.dataX.getD (j + 1) 0 - s.dataX.getD j 0|
              else 1 / |s.dataX.getD (j + 1) 0 - s.dataX.getD j 0|)) } := by
  unfold makeDistributionBin
  cases forwards <;> simp

/-- State of a row after the first `n` passes of the inner loop. -/
theorem makeDistributionRow_spec (forwards : Bool) (s : Spectrum α) (n : Nat) :
    (makeDistributionRow forwards n s).dataX = s.dataX
      ∧ (makeDistributionRow forwards n s).xStorage = s.xStorage
      ∧ (makeDistributionRow forwards n s).dataY.length = s.dataY.length
      ∧ (makeDistributionRow forwards n s).dataE.length = s.dataE.length
      ∧ (∀ k, (makeDistributionRow forwards n s).dataY.getD k 0
          = if k < n then s.dataY.getD k 0 /
              (if forwards then |s.dataX.getD (k + 1) 0 - s.dataX.getD k 0|
                else 1 / |s.dataX.getD (k + 1) 0 - s.dataX.getD k 0|)
            else s.dataY.getD k 0)
      ∧ (∀ k, (makeDistributionRow forwards n s).dataE.getD k 0
          = if k < n then s.dataE.getD k 0 /
              (if forwards then |s.dataX.getD (k + 1) 0 - s.dataX.getD k 0|
                else 1 / |s.dataX.getD (k + 1) 0 - s.dataX.getD k 0|)
            else s.dataE.getD k 0) := by
  induction n with
  | zero => simp [makeDistributionRow]
  | succ n ih =>
    obtain ⟨hX, hS, hYl, hEl, hY, hE⟩ := ih
    have hstep : makeDistributionRow forwards (n + 1) s
        = makeDistributionBin forwards (makeDistributionRow forwards n s) n := by
      unfold makeDistributionRow
      rw [List.range_succ, List.foldl_append]
      rfl
    rw [hstep, makeDistributionBin_eq]
    refine ⟨hX, hS, by simp [hYl], by simp [hEl], ?_, ?_⟩
    · intro k
      dsimp only
      rw [getD_set_eq]
      by_cases hk : n = k
      · subst hk
        rw [if_pos (Nat.lt_succ_self n)]
        by_cases hl : n < (makeDistributionRow forwards n s).dataY.length
        · rw [if_pos ⟨rfl, hl⟩, hY n, if_neg (lt_irrefl n), hX]
        · have h0 : s.dataY.getD n 0 = 0 := by
            rw [hYl] at hl
            exact List.getD_eq_default _ _ (not_lt.1 hl)
          rw [if_neg (fun h => hl h.2), hY n, if_neg (lt_irrefl n), h0, zero_div]
      · have hk2 : ¬ (n = k ∧ n < (makeDistributionRow forwards n s).dataY.length) :=
          fun h => hk h.1
        rw [if_neg hk2, hY k]
        have : (k < n + 1) ↔ (k < n) := by omega
        simp only [this]
    · intro k
      dsimp only
      rw [getD_set_eq]
      by_cases hk : n = k
      · subst hk
        rw [if_pos (Nat.lt_succ_self n)]
        by_cases hl : n < (makeDistributionRow forwards n s).dataE.length
        · rw [if_pos ⟨rfl, hl⟩, hE n, if_neg (lt_irrefl n), hX]
        · have h0 : s.dataE.getD n 0 = 0 := by
            rw [hEl] at hl
            exact List.getD_eq_default _ _ (not_lt.1 hl)
          rw [if_neg (fun h => hl h.2), hE n, if_neg (lt_irrefl n), h0, zero_div]
      · have hk2 : ¬ (n = k ∧ n < (makeDistributionRow forwards n s).dataE.length) :=
          fun h => hk h.1
        rw [if_neg hk2, hE k]
        have : (k < n + 1) ↔ (k < n) := by omega
        simp only [this]


theorem makeDistribution_of_eq (ws : MatrixWorkspace α) (forwards : Bool)
    (h : ws.isDistribution = forwards) : makeDistribution ws forwards = ws := by
  unfold makeDistribution
  rw [if_pos h]

theorem makeDistribution_of_ne (ws : MatrixWorkspace α) (forwards : Bool)
    (h : ws.isDistribution ≠ forwards) :
    makeDistribution ws forwards
      = { ws with
          spectra := ws.spectra.map (makeDistributionRow forwards ws.blocksize)
          isDistribution := forwards } := by
  unfold makeDistribution
  rw [if_neg h]

theorem makeDistribution_isDistribution (ws : MatrixWorkspace α) (forwards : Bool) :
    (makeDistribution ws forwards).isDistribution = forwards := by
  by_cases h : ws.isDistribution = forwards
  · rw [makeDistribution_of_eq ws forwards h, h]
  · rw [makeDistribution_of_ne ws forwards h]

theorem makeDistribution_readX (ws : MatrixWorkspace α) (forwards : Bool) (i : Nat) :
    (makeDistribution ws forwards).readX i = ws.readX i := by
  by_cases h : ws.isDistribution = forwards
  · rw [makeDistribution_of_eq ws forwards h]
  · rw [makeDistribution_of_ne ws forwards h]
    unfold MatrixWorkspace.readX
    simp only [List.get?_eq_getElem?, List.getElem?_map]
    cases ws.spectra[i]? with
    | none => rfl
    | some s => exact (makeDistributionRow_spec forwards s ws.blocksize).1

theorem makeDistribution_blocksize (ws : MatrixWorkspace α) (forwards : Bool) :
    (makeDistribution ws forwards).blocksize = ws.blocksize := by
  by_cases h : ws.isDistribution = forwards
  · rw [makeDistribution_of_eq ws forwards h]
  · rw [makeDistribution_of_ne ws forwards h]
    unfold MatrixWorkspace.blocksize
    simp only [List.get?_eq_getElem?, List.getElem?_map]
    cases ws.spectra[0]? with
    | none => rfl
    | some s => exact (makeDistributionRow_spec forwards s _).2.2.1

theorem makeDistribution_readY (ws : MatrixWorkspace α) (forwards : Bool)
    (h : ws.isDistribution ≠ forwards) (i j : Nat) (hj : j < ws.blocksize) :
    (makeDistribution ws forwards).readY i j
      = ws.readY i j /
          (if forwards then |(ws.readX i).getD (j + 1) 0 - (ws.readX i).getD j 0|
            else 1 / |(ws.readX i).getD (j + 1) 0 - (ws.readX i).getD j 0|) := by
  rw [makeDistribution_of_ne ws forwards h]
  unfold MatrixWorkspace.readY MatrixWorkspace.readX
  simp only [List.get?_eq_getElem?, List.getElem?_map]
  cases ws.spectra[i]? with
  | none => simp
  | some s =>
    simp only [Option.map_some']
    rw [(makeDistributionRow_spec forwards s ws.blocksize).2.2.2.2.1 j, if_pos hj]

theorem makeDistribution_readE (ws : MatrixWorkspace α) (forwards : Bool)
    (h : ws.isDistribution ≠ forwards) (i j : Nat) (hj : j < ws.blocksize) :
    (makeDistribution ws forwards).readE i j
      = ws.readE i j /
          (if forwards then |(ws.readX i).getD (j + 1) 0 - (ws.readX i).getD j 0|
            else 1 / |(ws.readX i).getD (j + 1) 0 - (ws.readX i).getD j 0|) := by
  rw [makeDistribution_of_ne ws forwards h]
  unfold MatrixWorkspace.readE MatrixWorkspace.readX
  simp only [List.get?_eq_getElem?, List.getElem?_map]
  cases ws.spectra[i]? with
  | none => simp
  | some s =>
    simp only [Option.map_some']
    rw [(makeDistributionRow_spec forwards s ws.blocksize).2.2.2.2.2 j, if_pos hj]

/-- C15: `makeDistribution(ws, forwards)` leaves the workspace unchanged when
its flag already equals `forwards`; otherwise, for every row `i` and bin `j`
with `width = |X_i[j+1] - X_i[j]|`, `Y` and `E` are divided by `width` when
`forwards` is true and multiplied by `width` when it is false, the boundaries
are unchanged, and in both cases the flag equals `forwards` afterwards. -/
theorem makeDistribution_spec (ws : MatrixWorkspace α) (forwards : Bool) :
    (ws.isDistribution = forwards → makeDistribution ws forwards = ws)
      ∧ (ws.isDistribution ≠ forwards →
          ∀ i j, i < ws.getNumberHistograms → j < ws.blocksize →
            (makeDistribution ws forwards).readX i = ws.readX i
              ∧ (makeDistribution ws forwards).readY i j
                = (if forwards then
                    ws.readY i j / |(ws.readX i).getD (j + 1) 0 - (ws.readX i).getD j 0|
                  else
                    ws.readY i j * |(ws.readX i).getD (j + 1) 0 - (ws.readX i).getD j 0|)
              ∧ (makeDistribution ws forwards).readE i j
                = (if forwards then
                    ws.readE i j / |(ws.readX i).getD (j + 1) 0 - (ws.readX i).getD j 0|
                  else
                    ws.readE i j * |(ws.readX i).getD (j + 1) 0 - (ws.readX i).getD j 0|))
      ∧ (makeDistribution ws forwards).isDistribution = forwards := by
  refine ⟨makeDistribution_of_eq ws forwards, ?_, makeDistribution_isDistribution ws forwards⟩
  intro h i j _ hj
  refine ⟨makeDistribution_readX ws forwards i, ?_, ?_⟩
  · rw [makeDistribution_readY ws forwards h i j hj]
    cases forwards
    · simp
    · simp
  · rw [makeDistribution_readE ws forwards h i j hj]
    cases forwards
    · simp
    · simp

/-- Witness for C15: `gridWideCounts` turned into a distribution; the first bin
of row 1 has the width 2. -/
theorem makeDistribution_spec_witness :
    (makeDistribution gridWideCounts true).readY 1 0
        = (if true = true then
            gridWideCounts.readY 1 0
              / |(gridWideCounts.readX 1).getD (0 + 1) 0 - (gridWideCounts.readX 1).getD 0 0|
          else
            gridWideCounts.readY 1 0
              * |(gridWideCounts.readX 1).getD (0 + 1) 0 - (gridWideCounts.readX 1).getD 0 0|)
      ∧ makeDistribution gridDist true = gridDist :=
  ⟨(((makeDistribution_spec gridWideCounts true).2.1 (by decide)) 1 0
      (by decide) (by decide)).2.1,
   (makeDistribution_spec gridDist true).1 rfl⟩


theorem div_div_one_div_cancel (y w : α) (hw : w ≠ 0) : y / w / (1 / w) = y := by
  field_simp

theorem makeDistributionRow_roundtrip (s : Spectrum α) (n : Nat)
    (hw : ∀ j, j < n → s.dataX.getD j 0 < s.dataX.getD (j + 1) 0) :
    makeDistributionRow false n (makeDistributionRow true n s) = s := by
  obtain ⟨hX1, hS1, hYl1, hEl1, hY1, hE1⟩ := makeDistributionRow_spec true s n
  obtain ⟨hX2, hS2, hYl2, hEl2, hY2, hE2⟩ :=
    makeDistributionRow_spec false (makeDistributionRow true n s) n
  have hne : ∀ k, k < n → |s.dataX.getD (k + 1) 0 - s.dataX.getD k 0| ≠ 0 := by
    intro k hk
    exact abs_ne_zero.2 (sub_ne_zero.2 (hw k hk).ne')
  have hYeq : (makeDistributionRow false n (makeDistributionRow true n s)).dataY = s.dataY := by
    apply list_eq_of_getD_eq _ _ (hYl2.trans hYl1)
    intro k _
    rw [hY2 k, hY1 k, hX1]
    by_cases hk : k < n
    · simp only [if_pos hk, if_true, Bool.false_eq_true, if_false]
      exact div_div_one_div_cancel _ _ (hne k hk)
    · simp only [if_neg hk]
  have hEeq : (makeDistributionRow false n (makeDistributionRow true n s)).dataE = s.dataE := by
    apply list_eq_of_getD_eq _ _ (hEl2.trans hEl1)
    intro k _
    rw [hE2 k, hE1 k, hX1]
    by_cases hk : k < n
    · simp only [if_pos hk, if_true, Bool.false_eq_true, if_false]
      exact div_div_one_div_cancel _ _ (hne k hk)
    · simp only [if_neg hk]
  have hXeq := hX2.trans hX1
  have hSeq := hS2.trans hS1
  cases hr : makeDistributionRow false n (makeDistributionRow true n s) with
  | mk X Y E a =>
    rw [hr] at hYeq hEeq hXeq hSeq
    cases s
    simp only at hYeq hEeq hXeq hSeq
    simp [hYeq, hEeq, hXeq, hSeq]

/-- C14 (as amended): for a grid of raw counts (`isDistribution = false`) whose
bin widths are all positive, converting to a distribution and back restores
the grid, hence the original `Y` and `E` of every cell. -/
theorem distribution_roundtrip (ws : MatrixWorkspace α) (hcounts : ws.isDistribution = false)
    (hw : ∀ s ∈ ws.spectra, ∀ j, j < ws.blocksize →
      s.dataX.getD j 0 < s.dataX.getD (j + 1) 0) :
    makeDistribution (makeDistribution ws true) false = ws
      ∧ ∀ i j, (makeDistribution (makeDistribution ws true) false).readY i j = ws.readY i j
          ∧ (makeDistribution (makeDistribution ws true) false).readE i j = ws.readE i j := by
  have h1 : ws.isDistribution ≠ true := by rw [hcounts]; decide
  have h2 : (makeDistribution ws true).isDistribution ≠ false := by
    rw [makeDistribution_isDistribution]; decide
  have hmain : makeDistribution (makeDistribution ws true) false = ws := by
    rw [makeDistribution_of_ne _ false h2, makeDistribution_blocksize]
    rw [makeDistribution_of_ne ws true h1]
    simp only [List.map_map]
    have hmap : ws.spectra.map
        (makeDistributionRow false ws.blocksize ∘ makeDistributionRow true ws.blocksize)
        = ws.spectra := by
      conv_rhs => rw [← List.map_id ws.spectra]
      apply List.map_congr_left
      intro s hs
      exact makeDistributionRow_roundtrip s ws.blocksize (hw s hs)
    rw [hmap]
    cases ws
    simp only at hcounts
    simp [hcounts]
  refine ⟨hmain, ?_⟩
  intro i j
  rw [hmain]
  exact ⟨rfl, rfl⟩

/-- Witness for C14: `gridWideCounts` has bins of width 2 and 1. -/
theorem distribution_roundtrip_witness :
    makeDistribution (makeDistribution gridWideCounts true) false = gridWideCounts
      ∧ ∀ i j,
          (makeDistribution (makeDistribution gridWideCounts true) false).readY i j
              = gridWideCounts.readY i j
            ∧ (makeDistribution (makeDistribution gridWideCounts true) false).readE i j
              = gridWideCounts.readE i j :=
  distribution_roundtrip gridWideCounts rfl (by
    intro s hs j hj
    have hj2 : j < 2 := hj
    simp [gridWideCounts] at hs
    rcases hs with rfl | rfl <;> interval_cases j <;> norm_num)

/-- Counterexample to C14 as stated: `gridWideDist` is already a distribution
and its bin has the positive width 2; the first conversion does nothing and the
second multiplies by the width, so `Y` goes from 3 to 6 and `E` from 1 to 2. -/
theorem distribution_roundtrip_counterexample :
    (∀ s ∈ gridWideDist.spectra, ∀ j, j < gridWideDist.blocksize →
        s.dataX.getD j 0 < s.dataX.getD (j + 1) 0)
      ∧ gridWideDist.readY 0 0 = 3 ∧ gridWideDist.readE 0 0 = 1
      ∧ (makeDistribution (makeDistribution gridWideDist true) false).readY 0 0 = 6
      ∧ (makeDistribution (makeDistribution gridWideDist true) false).readE 0 0 = 2
      ∧ (makeDistribution (makeDistribution gridWideDist true) false).readY 0 0
          ≠ gridWideDist.readY 0 0 := by
  have hY : (makeDistribution (makeDistribution gridWideDist true) false).readY 0 0 = 6 := by
    rw [makeDistribution_of_eq gridWideDist true rfl,
      makeDistribution_readY gridWideDist false (by decide) 0 0 (by decide)]
    norm_num [gridWideDist, MatrixWorkspace.readY, MatrixWorkspace.readX]
  have hE : (makeDistribution (makeDistribution gridWideDist true) false).readE 0 0 = 2 := by
    rw [makeDistribution_of_eq gridWideDist true rfl,
      makeDistribution_readE gridWideDist false (by decide) 0 0 (by decide)]
    norm_num [gridWideDist, MatrixWorkspace.readE, MatrixWorkspace.readX]
  refine ⟨?_, rfl, rfl, hY, hE, ?_⟩
  · intro s hs j hj
    have hj2 : j < 1 := hj
    simp [gridWideDist] at hs
    subst hs
    interval_cases j
    norm_num
  · rw [hY]
    norm_num [gridWideDist, MatrixWorkspace.readY]

theorem tolerance_pos : (0 : α) < tolerance := by
  unfold tolerance
  norm_num

theorem exceedsTolerance_self (a : α) : exceedsTolerance a a = false := by
  unfold exceedsTolerance
  split_ifs with h
  · simp
  · rw [sub_self, abs_zero, zero_div]
    simpa using (tolerance_pos (α := α)).le

theorem exceedsTolerance_of_pos (a b : α) (hpos : 0 < max a b) :
    exceedsTolerance a b = true ↔ |a - b| > tolerance * max a b := by
  unfold exceedsTolerance
  rw [if_neg hpos.ne', decide_eq_true_iff, gt_iff_lt, gt_iff_lt, lt_div_iff₀ hpos]

theorem commonSumCheck_eq_true_iff (ws : MatrixWorkspace α) :
    commonSumCheck ws = true ↔
      ∀ j, 1 ≤ j → j < ws.getNumberHistograms →
        exceedsTolerance (ws.sumX 0) (ws.sumX j) = false := by
  unfold commonSumCheck
  simp only [List.all_eq_true, List.mem_range'_1, Bool.not_eq_true']
  constructor
  · intro h j h1 h2
    exact h j ⟨h1, by omega⟩
  · intro h j hj
    exact h j hj.1 (by omega)

theorem commonBoundaries_of_fallback (ws : MatrixWorkspace α) (hb : ws.blocksize ≠ 0)
    (h2 : 2 ≤ ws.getNumberHistograms) (hns : sharedXData ws = false) :
    commonBoundaries ws = commonSumCheck ws := by
  unfold commonBoundaries
  rw [if_neg (by
    rintro (h | h)
    · exact hb h
    · omega), hns]
  rfl

theorem commonBoundaries_of_commonSumCheck (ws : MatrixWorkspace α)
    (h : commonSumCheck ws = true) : commonBoundaries ws = true := by
  unfold commonBoundaries
  split_ifs <;> first | rfl | exact h

/-- C16: `commonBoundaries` evaluated on `gridNegativeSums`, two non-empty
rows with separate `X` vectors whose boundary sums are `S_0 = -3` and
`S_1 = -30`.  The relative difference `|S_0 - S_1| / max(|S_0|, |S_1|)` is
`9/10`, far above `1.0e-7`, yet the result is `true`: the divisor of the source
is `max(S_0, S_1) = -3`, and the negative quotient never exceeds the
tolerance. -/
theorem commonBoundaries_negative_sums :
    gridNegativeSums.getNumberHistograms = 2
      ∧ gridNegativeSums.blocksize = 1
      ∧ sharedXData gridNegativeSums = false
      ∧ gridNegativeSums.sumX 0 = -3
      ∧ gridNegativeSums.sumX 1 = -30
      ∧ |gridNegativeSums.sumX 0 - gridNegativeSums.sumX 1|
          / max |gridNegativeSums.sumX 0| |gridNegativeSums.sumX 1| = 9 / 10
      ∧ (9 / 10 : ℚ) > tolerance
      ∧ commonBoundaries gridNegativeSums = true := by
  have h0 : gridNegativeSums.sumX 0 = -3 := by
    norm_num [MatrixWorkspace.sumX, MatrixWorkspace.readX, gridNegativeSums]
  have h1 : gridNegativeSums.sumX 1 = -30 := by
    norm_num [MatrixWorkspace.sumX, MatrixWorkspace.readX, gridNegativeSums]
  refine ⟨rfl, rfl, by decide, h0, h1, ?_, ?_, ?_⟩
  · rw [h0, h1]
    norm_num [abs_of_pos, abs_of_neg]
  · norm_num [tolerance]
  · norm_num [commonBoundaries, sharedXData, commonSumCheck, exceedsTolerance, tolerance,
      MatrixWorkspace.blocksize, MatrixWorkspace.getNumberHistograms, MatrixWorkspace.xAddress,
      MatrixWorkspace.sumX, MatrixWorkspace.readX, gridNegativeSums, List.range']

/-- C17: for a grid with two or more rows whose `X` vectors are separately
allocated (`sharedXData` is false) and numerically identical, the numeric
check succeeds and `commonBoundaries` returns `true`; for non-empty rows the
result is the one of the numeric check. -/
theorem commonBoundaries_value_equal_rows (ws : MatrixWorkspace α)
    (h2 : 2 ≤ ws.getNumberHistograms) (hns : sharedXData ws = false)
    (hsame : ∀ j, j < ws.getNumberHistograms → ws.readX j = ws.readX 0) :
    commonBoundaries ws = true
      ∧ commonSumCheck ws = true
      ∧ (ws.blocksize ≠ 0 → commonBoundaries ws = commonSumCheck ws) := by
  have hc : commonSumCheck ws = true := by
    rw [commonSumCheck_eq_true_iff]
    intro j _ hj
    have : ws.sumX j = ws.sumX 0 := by
      unfold MatrixWorkspace.sumX
      rw [hsame j hj]
    rw [this]
    exact exceedsTolerance_self _
  exact ⟨commonBoundaries_of_commonSumCheck ws hc, hc,
    fun hb => commonBoundaries_of_fallback ws hb h2 hns⟩

/-- Witness for C17: the two rows of `gridValueEqualRows` hold separate `X`
vectors with the boundaries `[1, 2, 3]`. -/
theorem commonBoundaries_value_equal_rows_witness :
    sharedXData gridValueEqualRows = false
      ∧ commonBoundaries gridValueEqualRows = true
      ∧ commonSumCheck gridValueEqualRows = true
      ∧ (gridValueEqualRows.blocksize ≠ 0 →
          commonBoundaries gridValueEqualRows = commonSumCheck gridValueEqualRows) :=
  ⟨by decide,
   commonBoundaries_value_equal_rows gridValueEqualRows (by decide) (by decide) (by
    intro j hj
    have hj2 : j < 2 := hj
    interval_cases j <;> rfl)⟩

/-- C18 (as amended): for a grid with two or more non-empty rows that do not
all hold the same `X` vector, if the boundary sum `S_j` of some row `j ≥ 1`
differs from the boundary sum `S_0` of the first row by more than `1.0e-7`
relative to the larger of the two sums, that larger sum being positive,
`commonBoundaries` returns `false`. -/
theorem commonBoundaries_detects_sum_difference (ws : MatrixWorkspace α)
    (h2 : 2 ≤ ws.getNumberHistograms) (hb : ws.blocksize ≠ 0)
    (hns : sharedXData ws = false) (j : Nat) (hj1 : 1 ≤ j)
    (hj : j < ws.getNumberHistograms)
    (hpos : 0 < max (ws.sumX 0) (ws.sumX j))
    (hdiff : |ws.sumX 0 - ws.sumX j| > tolerance * max (ws.sumX 0) (ws.sumX j)) :
    commonBoundaries ws = false := by
  rw [commonBoundaries_of_fallback ws hb h2 hns]
  by_contra hc
  have ht : commonSumCheck ws = true := by
    cases hcs : commonSumCheck ws
    · exact absurd hcs hc
    · rfl
  have hnot := (commonSumCheck_eq_true_iff ws).1 ht j hj1 hj
  rw [(exceedsTolerance_of_pos _ _ hpos).2 hdiff] at hnot
  exact Bool.noConfusion hnot

/-- Witness for C18: the rows of `gridDifferentRows` have the boundary sums 6
and 7. -/
theorem commonBoundaries_detects_sum_difference_witness :
    commonBoundaries gridDifferentRows = false :=
  commonBoundaries_detects_sum_difference gridDifferentRows (by decide) (by decide)
    (by decide) 1 (by decide) (by decide)
    (by norm_num [MatrixWorkspace.sumX, MatrixWorkspace.readX, gridDifferentRows])
    (by norm_num [MatrixWorkspace.sumX, MatrixWorkspace.readX, gridDifferentRows, tolerance,
      abs_of_neg])

/-- Counterexample to C18 as stated: the two non-empty rows of
`gridCancellingRows` hold separate `X` vectors, `[0, 3]` and `[1, 2]`; every
boundary of the second row differs from the first row by 1, far more than
`1.0e-7` relative, but both sums are 3 and `commonBoundaries` returns `true`. -/
theorem commonBoundaries_detects_difference_counterexample :
    gridCancellingRows.getNumberHistograms = 2
      ∧ gridCancellingRows.blocksize = 1
      ∧ sharedXData gridCancellingRows = false
      ∧ gridCancellingRows.readX 0 = [0, 3]
      ∧ gridCancellingRows.readX 1 = [1, 2]
      ∧ |(gridCancellingRows.readX 1).getD 0 0 - (gridCancellingRows.readX 0).getD 0 0|
          > tolerance * max |(gridCancellingRows.readX 0).getD 0 0|
              |(gridCancellingRows.readX 1).getD 0 0|
      ∧ commonBoundaries gridCancellingRows = true := by
  refine ⟨rfl, rfl, by decide, rfl, rfl, ?_, ?_⟩
  · norm_num [gridCancellingRows, MatrixWorkspace.readX, tolerance]
  · norm_num [commonBoundaries, sharedXData, commonSumCheck, exceedsTolerance, tolerance,
      MatrixWorkspace.blocksize, MatrixWorkspace.getNumberHistograms, MatrixWorkspace.xAddress,
      MatrixWorkspace.sumX, MatrixWorkspace.readX, gridCancellingRows, List.range']


theorem matchingBins_of_length_ne (ws1 ws2 : MatrixWorkspace α) (firstOnly : Bool)
    (h : (ws1.readX 0).length ≠ (ws2.readX 0).length) :
    matchingBins ws1 ws2 firstOnly = false := by
  unfold matchingBins
  rw [if_pos h]

/-- With `firstOnly` the result of `matchingBins` is decided by the length and
the sum of the first rows. -/
theorem matchingBins_firstOnly_iff (ws1 ws2 : MatrixWorkspace α) :
    matchingBins ws1 ws2 true = true ↔
      ((ws1.readX 0).length = (ws2.readX 0).length
        ∧ exceedsTolerance (ws1.sumX 0) (ws2.sumX 0) = false) := by
  unfold matchingBins
  by_cases hl : (ws1.readX 0).length = (ws2.readX 0).length
  · rw [if_neg (not_not.2 hl)]
    simp only
    cases he : exceedsTolerance (ws1.sumX 0) (ws2.sumX 0)
    · simp [hl]
    · simp
  · rw [if_pos hl]
    simp [hl]

theorem matchingBins_firstOnly_congr (ws1 ws2 ws3 ws4 : MatrixWorkspace α)
    (h1 : ws3.readX 0 = ws1.readX 0) (h2 : ws4.readX 0 = ws2.readX 0) :
    matchingBins ws3 ws4 true = matchingBins ws1 ws2 true := by
  have h := matchingBins_firstOnly_iff ws1 ws2
  have h' := matchingBins_firstOnly_iff ws3 ws4
  unfold MatrixWorkspace.sumX at h h'
  rw [h1, h2] at h'
  cases hb : matchingBins ws1 ws2 true
  · cases hb' : matchingBins ws3 ws4 true
    · rfl
    · exact absurd (h.2 (h'.1 hb')) (by rw [hb]; decide)
  · exact h'.2 (h.1 hb)

/-- C19: `matchingBins` returns `false`, for either value of `firstOnly`,
whenever the first rows have different column counts (one less than the
number of boundaries), and `matchingBins(A, B, false)` returns `false`
whenever the total element counts differ; with equal bins per row the latter
means different numbers of rows. -/
theorem matchingBins_rejects_shapes (ws1 ws2 : MatrixWorkspace α) :
    ((ws1.readX 0).length - 1 ≠ (ws2.readX 0).length - 1 →
        ∀ firstOnly, matchingBins ws1 ws2 firstOnly = false)
      ∧ (ws1.size ≠ ws2.size → matchingBins ws1 ws2 false = false)
      ∧ (ws1.size ≠ ws2.size → ws1.blocksize = ws2.blocksize →
          ws1.getNumberHistograms ≠ ws2.getNumberHistograms) := by
  refine ⟨?_, ?_, ?_⟩
  · intro h firstOnly
    exact matchingBins_of_length_ne ws1 ws2 firstOnly (fun hl => h (by rw [hl]))
  · intro h
    unfold matchingBins
    split_ifs <;> first | rfl | simp_all
  · intro h hb hn
    apply h
    unfold MatrixWorkspace.size
    rw [hb, hn]

/-- Witness for C19: `gridThreeBins` has three bins in its first row and
`gridCounts` two; `gridCounts` has four elements and `gridMinusThree` one. -/
theorem matchingBins_rejects_shapes_witness :
    matchingBins gridThreeBins gridCounts true = false
      ∧ matchingBins gridThreeBins gridCounts false = false
      ∧ matchingBins gridCounts gridMinusThree false = false :=
  ⟨(matchingBins_rejects_shapes gridThreeBins gridCounts).1 (by decide) true,
   (matchingBins_rejects_shapes gridThreeBins gridCounts).1 (by decide) false,
   (matchingBins_rejects_shapes gridCounts gridMinusThree).2.1 (by decide)⟩

/-- C20: `matchingBins` with `firstOnly = true` evaluated on the one-row grids
`gridMinusThree` and `gridMinusThirty`, whose first rows have two boundaries
each and the boundary sums `-3` and `-30`.  The sums differ by `9/10` relative
to the larger magnitude, so they do not agree to `1.0e-7`, yet the result is
`true`: the divisor of the source is `max(-3, -30) = -3` and the negative
quotient never exceeds the tolerance. -/
theorem matchingBins_first_row_negative_sums :
    (gridMinusThree.readX 0).length = (gridMinusThirty.readX 0).length
      ∧ gridMinusThree.sumX 0 = -3
      ∧ gridMinusThirty.sumX 0 = -30
      ∧ |gridMinusThree.sumX 0 - gridMinusThirty.sumX 0|
          / max |gridMinusThree.sumX 0| |gridMinusThirty.sumX 0| = 9 / 10
      ∧ (9 / 10 : ℚ) > tolerance
      ∧ matchingBins gridMinusThree gridMinusThirty true = true := by
  have h0 : gridMinusThree.sumX 0 = -3 := by
    norm_num [MatrixWorkspace.sumX, MatrixWorkspace.readX, gridMinusThree]
  have h1 : gridMinusThirty.sumX 0 = -30 := by
    norm_num [MatrixWorkspace.sumX, MatrixWorkspace.readX, gridMinusThirty]
  refine ⟨rfl, h0, h1, ?_, ?_, ?_⟩
  · rw [h0, h1]
    norm_num [abs_of_pos, abs_of_neg]
  · norm_num [tolerance]
  · rw [matchingBins_firstOnly_iff, h0, h1]
    refine ⟨rfl, ?_⟩
    norm_num [exceedsTolerance, tolerance]

/-- C27: the search with the two 1-D rejections returns exactly the same
list, in the same order, as the naive search that computes the overlap for
every pair `(i, j)`. -/
theorem early_rejection_loses_nothing (oldAxis1 oldAxis2 : List α)
    (newPoly : ConvexPolygon α) :
    findIntersections oldAxis1 oldAxis2 newPoly
      = naiveIntersections oldAxis1 oldAxis2 newPoly := by
  rw [findIntersections_eq]
  unfold naiveIntersections
  apply flatMap_congr_mem
  intro i _
  apply flatMap_congr_mem
  intro j _
  exact (match_chasing_eq_cellRecords oldAxis1 oldAxis2 newPoly i j).symm

/-- C25: the label of every output row `r` is
`(newYBins[r] + newYBins[r+1]) / 2`, and it lies strictly between the two
boundaries when the row boundaries are strictly increasing. -/
theorem row_label_is_midpoint (sqrt : α → α) (createBinBoundaries : List α → List α)
    (ws : MatrixWorkspace α) (values newXBins newYBins : List α)
    (haxis : ws.axis1 = Axis.numeric values) :
    ∃ out, exec sqrt createBinBoundaries ws newXBins newYBins = Except.ok out
      ∧ out.axisValues.length = newYBins.length - 1
      ∧ ∀ r, r < newYBins.length - 1 →
          out.axisValues.getD r 0 = (newYBins.getD r 0 + newYBins.getD (r + 1) 0) / 2
            ∧ (newYBins.Sorted (· < ·) →
                newYBins.getD r 0 < out.axisValues.getD r 0
                  ∧ out.axisValues.getD r 0 < newYBins.getD (r + 1) 0) := by
  unfold exec
  rw [haxis]
  refine ⟨_, rfl, by simp [MatrixWorkspace.axisValues], ?_⟩
  intro r hr
  have hval : ((List.range (newYBins.length - 1)).map fun i =>
      (0.5 : α) * (newYBins.getD i 0 + newYBins.getD (i + 1) 0)).getD r 0
      = (newYBins.getD r 0 + newYBins.getD (r + 1) 0) / 2 := by
    rw [List.getD_eq_getElem _ _ (by simpa using hr)]
    simp only [List.getElem_map, List.getElem_range]
    norm_num
    ring
  refine ⟨hval, ?_⟩
  intro hs
  have hlt := getD_lt_succ_of_sorted newYBins hs r (by omega)
  constructor
  · show newYBins.getD r 0 < ((List.range (newYBins.length - 1)).map fun i =>
      (0.5 : α) * (newYBins.getD i 0 + newYBins.getD (i + 1) 0)).getD r 0
    rw [hval]
    linarith
  · show ((List.range (newYBins.length - 1)).map fun i =>
      (0.5 : α) * (newYBins.getD i 0 + newYBins.getD (i + 1) 0)).getD r 0
        < newYBins.getD (r + 1) 0
    rw [hval]
    linarith


/-- Witness for C25: `gridCounts` rebinned onto the row boundaries `[0, 1, 3]`. -/
theorem row_label_is_midpoint_witness :
    ∃ out, exec Rat.sqrt id gridCounts [0, 1, 2] [0, 1, 3] = Except.ok out
      ∧ out.axisValues.length = ([0, 1, 3] : List ℚ).length - 1
      ∧ ∀ r, r < ([0, 1, 3] : List ℚ).length - 1 →
          out.axisValues.getD r 0
              = (([0, 1, 3] : List ℚ).getD r 0 + ([0, 1, 3] : List ℚ).getD (r + 1) 0) / 2
            ∧ (([0, 1, 3] : List ℚ).Sorted (· < ·) →
                ([0, 1, 3] : List ℚ).getD r 0 < out.axisValues.getD r 0
                  ∧ out.axisValues.getD r 0 < ([0, 1, 3] : List ℚ).getD (r + 1) 0) :=
  row_label_is_midpoint Rat.sqrt id gridCounts [0, 1, 2] [0, 1, 2] [0, 1, 3] rfl

theorem readY_eq_of_map (ws1 ws2 : MatrixWorkspace α)
    (h : ws1.spectra.map (fun s => s.dataY) = ws2.spectra.map (fun s => s.dataY)) (i j : Nat) :
    ws1.readY i j = ws2.readY i j := by
  have h1 : ∀ ws : MatrixWorkspace α,
      ws.readY i j = ((ws.spectra.map (fun s => s.dataY)).getD i []).getD j 0 := by
    intro ws
    unfold MatrixWorkspace.readY
    simp only [List.get?_eq_getElem?, List.getD_eq_getElem?_getD, List.getElem?_map]
    cases ws.spectra[i]? with
    | none => simp
    | some s => simp
  rw [h1 ws1, h1 ws2, h]

theorem readE_eq_of_map (ws1 ws2 : MatrixWorkspace α)
    (h : ws1.spectra.map (fun s => s.dataE) = ws2.spectra.map (fun s => s.dataE)) (i j : Nat) :
    ws1.readE i j = ws2.readE i j := by
  have h1 : ∀ ws : MatrixWorkspace α,
      ws.readE i j = ((ws.spectra.map (fun s => s.dataE)).getD i []).getD j 0 := by
    intro ws
    unfold MatrixWorkspace.readE
    simp only [List.get?_eq_getElem?, List.getD_eq_getElem?_getD, List.getElem?_map]
    cases ws.spectra[i]? with
    | none => simp
    | some s => simp
  rw [h1 ws1, h1 ws2, h]

theorem execRow_congr (sqrt : α → α) (ws1 ws2 : MatrixWorkspace α)
    (oldYBins newXBins newYBins : List α) (r : Nat)
    (h : ∀ P, calculateYE sqrt ws1 oldYBins P = calculateYE sqrt ws2 oldYBins P) :
    execRow sqrt ws1 oldYBins newXBins newYBins r
      = execRow sqrt ws2 oldYBins newXBins newYBins r := by
  unfold execRow
  simp only [h]

/-- C26: two input grids that agree on the row axis, on all `Y` and `E`
values, on the distribution flag and on the column boundaries of row 0 give
the same result of `exec` for every target grid, whatever the column
boundaries of their other rows are. -/
theorem only_first_row_boundaries_used (sqrt : α → α)
    (createBinBoundaries : List α → List α) (ws1 ws2 : MatrixWorkspace α)
    (newXBins newYBins : List α)
    (hax : ws1.axis1 = ws2.axis1) (hd : ws1.isDistribution = ws2.isDistribution)
    (hx0 : ws1.readX 0 = ws2.readX 0)
    (hY : ws1.spectra.map (fun s => s.dataY) = ws2.spectra.map (fun s => s.dataY))
    (hE : ws1.spectra.map (fun s => s.dataE) = ws2.spectra.map (fun s => s.dataE)) :
    exec sqrt createBinBoundaries ws1 newXBins newYBins
      = exec sqrt createBinBoundaries ws2 newXBins newYBins := by
  have hc : ∀ oldYBins P, calculateYE sqrt ws1 oldYBins P = calculateYE sqrt ws2 oldYBins P :=
    fun oldYBins P => calculateYE_congr sqrt ws1 ws2 oldYBins P hd hx0
      (fun r _ => ⟨readY_eq_of_map ws1 ws2 hY _ _, readE_eq_of_map ws1 ws2 hE _ _⟩)
  unfold exec
  rw [hax]
  cases ws2.axis1 with
  | other => rfl
  | numeric values =>
    simp only [hd, execRow_congr sqrt ws1 ws2 _ newXBins newYBins _ (hc _)]


/-- Witness for C26: `gridCountsOtherX` differs from `gridCounts` in the column
boundaries of row 1 only. -/
theorem only_first_row_boundaries_used_witness :
    exec Rat.sqrt id gridCounts [0, 1/2, 2] [0, 2]
      = exec Rat.sqrt id gridCountsOtherX [0, 1/2, 2] [0, 2] :=
  only_first_row_boundaries_used Rat.sqrt id gridCounts gridCountsOtherX [0, 1/2, 2] [0, 2]
    rfl rfl rfl rfl rfl

theorem sum_map_linear {β : Type} (l : List β) (f g : β → α) (a b : α) :
    (l.map fun o => a * f o + b * g o).sum = a * (l.map f).sum + b * (l.map g).sum := by
  induction l with
  | nil => simp
  | cons x l ih =>
    simp only [List.map_cons, List.sum_cons, ih]
    ring

theorem calculateYE_fst (sqrt : α → α) (ws : MatrixWorkspace α) (oldYBins : List α)
    (P : ConvexPolygon α) :
    (calculateYE sqrt ws oldYBins P).1
      = if ws.isDistribution then
          ((findIntersections (ws.readX 0) oldYBins P).map fun o =>
            ws.readY o.yIndex o.xIndex
              * ((ws.readX 0).getD (o.xIndex + 1) 0 - (ws.readX 0).getD o.xIndex 0)
              * o.weight).sum / (P.xHigh - P.xLow)
        else
          ((findIntersections (ws.readX 0) oldYBins P).map fun o =>
            ws.readY o.yIndex o.xIndex * o.weight).sum := by
  unfold calculateYE
  split_ifs
  · simp only [calculateDistYE_eq]
  · simp only [calculateYEOverlaps_eq]

/-- The signal of a new bin is linear in the input signal. -/
theorem calculateYE_fst_linear (sqrt1 sqrt2 sqrt3 : α → α) (ws1 ws2 ws3 : MatrixWorkspace α)
    (a b : α) (oldYBins : List α) (P : ConvexPolygon α)
    (hx1 : ws1.readX 0 = ws3.readX 0) (hx2 : ws2.readX 0 = ws3.readX 0)
    (hd1 : ws1.isDistribution = ws3.isDistribution)
    (hd2 : ws2.isDistribution = ws3.isDistribution)
    (hY : ∀ i j, ws3.readY i j = a * ws1.readY i j + b * ws2.readY i j) :
    (calculateYE sqrt3 ws3 oldYBins P).1
      = a * (calculateYE sqrt1 ws1 oldYBins P).1 + b * (calculateYE sqrt2 ws2 oldYBins P).1 := by
  rw [calculateYE_fst, calculateYE_fst, calculateYE_fst, hx1, hx2, hd1, hd2]
  split_ifs
  · rw [← mul_div_assoc, ← mul_div_assoc, ← add_div, ← sum_map_linear]
    congr 2
    apply List.map_congr_left
    intro o _
    rw [hY]
    ring
  · rw [← sum_map_linear]
    congr 1
    apply List.map_congr_left
    intro o _
    rw [hY]
    ring

/-- C30: for fixed old boundaries, target boundaries and distribution flag,
the `Y` written to every output cell for the input signal `a * Y1 + b * Y2`
is `a * Y_out(Y1) + b * Y_out(Y2)`, whatever the three error arrays are (and
whatever the square root is); in particular `Y_out` does not depend on the
input errors. -/
theorem rebinned_signal_linear (sqrt1 sqrt2 sqrt3 : α → α)
    (createBinBoundaries : List α → List α) (ws1 ws2 ws3 : MatrixWorkspace α)
    (values newXBins newYBins : List α) (a b : α)
    (hax1 : ws1.axis1 = Axis.numeric values) (hax2 : ws2.axis1 = Axis.numeric values)
    (hax3 : ws3.axis1 = Axis.numeric values)
    (hx1 : ws1.readX 0 = ws3.readX 0) (hx2 : ws2.readX 0 = ws3.readX 0)
    (hd1 : ws1.isDistribution = ws3.isDistribution)
    (hd2 : ws2.isDistribution = ws3.isDistribution)
    (hY : ∀ i j, ws3.readY i j = a * ws1.readY i j + b * ws2.readY i j) :
    ∃ out1 out2 out3,
      exec sqrt1 createBinBoundaries ws1 newXBins newYBins = Except.ok out1
        ∧ exec sqrt2 createBinBoundaries ws2 newXBins newYBins = Except.ok out2
        ∧ exec sqrt3 createBinBoundaries ws3 newXBins newYBins = Except.ok out3
        ∧ ∀ r c, r < newYBins.length - 1 → c < newXBins.length - 1 →
            out3.readY r c = a * out1.readY r c + b * out2.readY r c := by
  unfold exec
  rw [hax1, hax2, hax3]
  refine ⟨_, _, _, rfl, rfl, rfl, ?_⟩
  intro r c hr hc
  rw [exec_readY sqrt1 ws1 _ _ _ _ _ r c hr hc, exec_readY sqrt2 ws2 _ _ _ _ _ r c hr hc,
    exec_readY sqrt3 ws3 _ _ _ _ _ r c hr hc]
  exact calculateYE_fst_linear sqrt1 sqrt2 sqrt3 ws1 ws2 ws3 a b _ _ hx1 hx2 hd1 hd2 hY

/-- Witness for C30: the signal of `gridCountsCombined` is `2 * Y + 3 * Y` for
the signal `Y` of `gridCounts`, and its errors are different. -/
theorem rebinned_signal_linear_witness :
    ∃ out1 out2 out3,
      exec Rat.sqrt id gridCounts [0, 1/2, 2] [0, 2] = Except.ok out1
        ∧ exec Rat.sqrt id gridCounts [0, 1/2, 2] [0, 2] = Except.ok out2
        ∧ exec Rat.sqrt id gridCountsCombined [0, 1/2, 2] [0, 2] = Except.ok out3
        ∧ ∀ r c, r < ([0, 2] : List ℚ).length - 1 → c < ([0, 1/2, 2] : List ℚ).length - 1 →
            out3.readY r c = 2 * out1.readY r c + 3 * out2.readY r c :=
  rebinned_signal_linear Rat.sqrt Rat.sqrt Rat.sqrt id gridCounts gridCounts gridCountsCombined
    [0, 1, 2] [0, 1/2, 2] [0, 2] 2 3 rfl rfl rfl rfl rfl rfl rfl (by
      intro i j
      unfold MatrixWorkspace.readY
      rcases i with _ | _ | i
      · rcases j with _ | _ | j <;> norm_num [gridCounts, gridCountsCombined]
      · rcases j with _ | _ | j <;> norm_num [gridCounts, gridCountsCombined]
      · norm_num [gridCounts, gridCountsCombined])

/-- C24 (as amended): constructing a `Histogram` from bin edges fails exactly
when the list has one entry; it succeeds, keeping the edges, for every other
list: for `[1, 2, 3]`, for the empty list and for lists that are not strictly
increasing. -/
theorem histogram_from_bin_edges (edges : List α) :
    (edges.length = 1 → Histogram.fromBinEdges edges = Except.error HistogramError.logicError)
      ∧ (edges.length ≠ 1 →
          Histogram.fromBinEdges edges = Except.ok { x := edges, xMode := XMode.BinEdges })
      ∧ Histogram.fromBinEdges ([1, 2, 3] : List α)
          = Except.ok { x := [1, 2, 3], xMode := XMode.BinEdges } := by
  refine ⟨?_, ?_, ?_⟩
  · intro h
    unfold Histogram.fromBinEdges
    simp [h]
  · intro h
    unfold Histogram.fromBinEdges
    simp [h]
  · unfold Histogram.fromBinEdges
    simp

/-- Witness for C24: one edge is rejected, three edges are accepted. -/
theorem histogram_from_bin_edges_witness :
    Histogram.fromBinEdges ([5] : List ℚ) = Except.error HistogramError.logicError
      ∧ Histogram.fromBinEdges ([1, 2, 3] : List ℚ)
          = Except.ok { x := [1, 2, 3], xMode := XMode.BinEdges } :=
  ⟨(histogram_from_bin_edges ([5] : List ℚ)).1 rfl,
   (histogram_from_bin_edges ([1, 2, 3] : List ℚ)).2.1 (by decide)⟩

/-- Counterexample to C24 as stated: the edges `[2, 1]` are not strictly
increasing and the empty list has fewer than two entries, and the constructor
accepts both. -/
theorem histogram_from_bin_edges_counterexample :
    ¬ ([2, 1] : List ℚ).Sorted (· < ·)
      ∧ Histogram.fromBinEdges ([2, 1] : List ℚ)
          = Except.ok { x := [2, 1], xMode := XMode.BinEdges }
      ∧ ([] : List ℚ).length < 2
      ∧ Histogram.fromBinEdges ([] : List ℚ)
          = Except.ok { x := [], xMode := XMode.BinEdges } :=
  ⟨by decide, rfl, by decide, rfl⟩

theorem sampledRowsFrom_mem (step n : Nat) :
    ∀ fuel start i, i ∈ sampledRowsFrom step n fuel start →
      start ≤ i ∧ i < n ∧ step ∣ (i - start) := by
  intro fuel
  induction fuel with
  | zero =>
    intro start i hi
    simp [sampledRowsFrom] at hi
  | succ fuel ih =>
    intro start i hi
    unfold sampledRowsFrom at hi
    split_ifs at hi with hlt
    · rcases List.mem_cons.1 hi with rfl | hrest
      · exact ⟨le_refl _, hlt, by simp⟩
      · obtain ⟨h1, h2, h3⟩ := ih (start + step) i hrest
        refine ⟨by omega, h2, ?_⟩
        have : i - start = (i - (start + step)) + step := by omega
        rw [this]
        exact Dvd.dvd.add h3 (dvd_refl step)
    · simp at hi

theorem sampledRows_mem (step n i : Nat) (hi : i ∈ sampledRows step n) :
    step ≤ i ∧ i < n ∧ step ∣ i := by
  obtain ⟨h1, h2, h3⟩ := sampledRowsFrom_mem step n n step i hi
  refine ⟨h1, h2, ?_⟩
  have : i = (i - step) + step := by omega
  rw [this]
  exact Dvd.dvd.add h3 (dvd_refl step)

theorem exceedsTolerance_comm (a b : α) : exceedsTolerance a b = exceedsTolerance b a := by
  unfold exceedsTolerance
  rw [max_comm a b, abs_sub_comm a b]
  split_ifs
  · exact decide_eq_decide.2 ne_comm
  · rfl

omit [LinearOrderedField α] in
theorem sharedXData_eq_false (ws : MatrixWorkspace α) (i : Nat) (h1 : 1 ≤ i)
    (hi : i < ws.getNumberHistograms) (hne : ws.xAddress 0 ≠ ws.xAddress i) :
    sharedXData ws = false := by
  unfold sharedXData
  rw [List.all_eq_false]
  refine ⟨i, List.mem_range'_1.2 ⟨h1, by omega⟩, ?_⟩
  simp [hne]

/-- When `matchingBins` reaches its sampling loop the result is the outcome of
the loop over the sampled rows. -/
theorem matchingBins_sampling_eq (ws1 ws2 : MatrixWorkspace α)
    (hlen : (ws1.readX 0).length = (ws2.readX 0).length)
    (hfirst : exceedsTolerance (ws1.sumX 0) (ws2.sumX 0) = false)
    (hsize : ws1.size = ws2.size)
    (hshared : (sharedXData ws1 && sharedXData ws2) = false) :
    matchingBins ws1 ws2 false
      = (sampledRows (sampleStep ws1.getNumberHistograms) ws1.getNumberHistograms).all
          fun i => !exceedsTolerance (ws1.sumX i) (ws2.sumX i) := by
  unfold matchingBins
  rw [if_neg (not_not.2 hlen)]
  simp only [hfirst, hshared, hsize]
  simp

/-- When all other tests pass and every sampled row has the same boundaries in
both grids, `matchingBins` returns `true`. -/
theorem matchingBins_of_sampled_equal (ws1 ws2 : MatrixWorkspace α)
    (hlen : (ws1.readX 0).length = (ws2.readX 0).length)
    (hfirst : ws1.readX 0 = ws2.readX 0)
    (hsize : ws1.size = ws2.size)
    (hrows : ∀ i ∈ sampledRows (sampleStep ws1.getNumberHistograms) ws1.getNumberHistograms,
      ws1.readX i = ws2.readX i) :
    matchingBins ws1 ws2 false = true := by
  have hf : exceedsTolerance (ws1.sumX 0) (ws2.sumX 0) = false := by
    unfold MatrixWorkspace.sumX
    rw [hfirst]
    exact exceedsTolerance_self _
  cases hs : (sharedXData ws1 && sharedXData ws2)
  · rw [matchingBins_sampling_eq ws1 ws2 hlen hf hsize hs, List.all_eq_true]
    intro i hi
    unfold MatrixWorkspace.sumX
    rw [hrows i hi, exceedsTolerance_self]
    rfl
  · unfold matchingBins
    rw [if_neg (not_not.2 hlen)]
    simp only [hf, hs, hsize]
    simp


theorem separateRowsGrid_xAddress (n i : Nat) (hi : i < n) :
    (separateRowsGrid n).xAddress i = i := by
  unfold MatrixWorkspace.xAddress separateRowsGrid
  simp [hi]

theorem separateRowsGrid_reaches_loop (n : Nat) (hn : 2 ≤ n) :
    matchingBins (separateRowsGrid n) (separateRowsGrid n) false
      = (sampledRows (sampleStep n) n).all
          fun i => !exceedsTolerance ((separateRowsGrid n).sumX i) ((separateRowsGrid n).sumX i) := by
  have hs : sharedXData (separateRowsGrid n) = false :=
    sharedXData_eq_false (separateRowsGrid n) 1 (le_refl 1)
      (by simp [MatrixWorkspace.getNumberHistograms, separateRowsGrid]; omega)
      (by rw [separateRowsGrid_xAddress n 0 (by omega), separateRowsGrid_xAddress n 1 (by omega)]
          decide)
  have h := matchingBins_sampling_eq (separateRowsGrid n) (separateRowsGrid n) rfl
    (exceedsTolerance_self _) rfl (by rw [hs]; rfl)
  have hnum : (separateRowsGrid n).getNumberHistograms = n := by
    simp [MatrixWorkspace.getNumberHistograms, separateRowsGrid]
  rw [hnum] at h
  exact h

/-- C21: `matchingBins` evaluated on two copies of `separateRowsGrid 1099`
(1099 rows of equal shape, every row with an `X` vector of its own).  The
sampling loop is reached, its stride is `1099 / 100 = 10`, and it compares the
109 rows `10, 20, ..., 1090`: more than the 100 rows named by the claim and
by the comment of the source. -/
theorem sampling_compares_more_than_100_rows :
    (separateRowsGrid 1099).getNumberHistograms = 1099
      ∧ matchingBins (separateRowsGrid 1099) (separateRowsGrid 1099) false
          = (sampledRows (sampleStep 1099) 1099).all (fun i =>
              !exceedsTolerance ((separateRowsGrid 1099).sumX i)
                ((separateRowsGrid 1099).sumX i))
      ∧ sampleStep 1099 = 10
      ∧ (sampledRows (sampleStep 1099) 1099).length = 109
      ∧ matchingBins (separateRowsGrid 1099) (separateRowsGrid 1099) false = true := by
  have hnum : (separateRowsGrid 1099).getNumberHistograms = 1099 := by
    simp [MatrixWorkspace.getNumberHistograms, separateRowsGrid]
  refine ⟨hnum, separateRowsGrid_reaches_loop 1099 (by decide), by decide, by decide, ?_⟩
  exact matchingBins_of_sampled_equal _ _ rfl rfl rfl (fun i _ => rfl)

/-- Counterexample to C22 as stated: `matchingBins` evaluated on two copies of
`separateRowsGrid 20` (20 rows of equal shape, every row with an `X` vector of
its own, no mismatch).  The sampling loop is reached, its stride is
`20 / 10 = 2`, and the rows other than row 0 that it compares are the 9 rows
`2, 4, ..., 18`: one fewer than the 10 further rows of the claim.  Row 0 is
compared before the loop, which makes 10 rows in all. -/
theorem sampling_compares_fewer_than_10_rows :
    (separateRowsGrid 20).getNumberHistograms = 20
      ∧ matchingBins (separateRowsGrid 20) (separateRowsGrid 20) false
          = (sampledRows (sampleStep 20) 20).all (fun i =>
              !exceedsTolerance ((separateRowsGrid 20).sumX i) ((separateRowsGrid 20).sumX i))
      ∧ sampleStep 20 = 2
      ∧ sampledRows (sampleStep 20) 20 = [2, 4, 6, 8, 10, 12, 14, 16, 18]
      ∧ (sampledRows (sampleStep 20) 20).length = 9
      ∧ matchingBins (separateRowsGrid 20) (separateRowsGrid 20) false = true := by
  have hnum : (separateRowsGrid 20).getNumberHistograms = 20 := by
    simp [MatrixWorkspace.getNumberHistograms, separateRowsGrid]
  refine ⟨hnum, separateRowsGrid_reaches_loop 20 (by decide), by decide, by decide,
    by decide, ?_⟩
  exact matchingBins_of_sampled_equal _ _ rfl rfl rfl (fun i _ => rfl)

/-- With enough fuel the sampling loop started at `start` with a positive
stride visits row `start + k * step` whenever that row exists, so it visits
more than `k` rows. -/
theorem sampledRowsFrom_length_gt (step n : Nat) :
    ∀ k fuel start, start + k * step < n → k < fuel →
      k < (sampledRowsFrom step n fuel start).length := by
  intro k
  induction k with
  | zero =>
    intro fuel start hlt hfuel
    obtain ⟨f, rfl⟩ : ∃ f, fuel = f + 1 := ⟨fuel - 1, by omega⟩
    unfold sampledRowsFrom
    rw [if_pos (by omega)]
    simp
  | succ k ih =>
    intro fuel start hlt hfuel
    obtain ⟨f, rfl⟩ : ∃ f, fuel = f + 1 := ⟨fuel - 1, by omega⟩
    have hstep : start + (k + 1) * step = start + step + k * step := by ring
    have hstart : start < n := by
      have : start ≤ start + (k + 1) * step := Nat.le_add_right _ _
      omega
    unfold sampledRowsFrom
    rw [if_pos hstart, List.length_cons]
    have := ih f (start + step) (by omega) (by omega)
    omega

/-- The rows visited by the sampling loop are strictly increasing when the
stride is positive. -/
theorem sampledRowsFrom_sorted (step n : Nat) (hstep : 0 < step) :
    ∀ fuel start, (sampledRowsFrom step n fuel start).Sorted (· < ·) := by
  intro fuel
  induction fuel with
  | zero =>
    intro start
    simp [sampledRowsFrom]
  | succ fuel ih =>
    intro start
    unfold sampledRowsFrom
    split_ifs with hlt
    · refine List.sorted_cons.2 ⟨?_, ih (start + step)⟩
      intro b hb
      have := (sampledRowsFrom_mem step n fuel (start + step) b hb).1
      omega
    · exact List.sorted_nil

/-- The stride of the sampling loop is positive, and for a row count of at
least 10 nine strides stay below the row count. -/
theorem sampleStep_bounds (n : Nat) :
    0 < sampleStep n ∧ (10 ≤ n → 9 * sampleStep n < n) := by
  unfold sampleStep
  simp only
  have hntc : 10 ≤ (if (if n / 10 < 10 then 10 else n / 10) > 100 then 100
      else (if n / 10 < 10 then 10 else n / 10)) := by
    split_ifs <;> omega
  generalize (if (if n / 10 < 10 then 10 else n / 10) > 100 then 100
      else (if n / 10 < 10 then 10 else n / 10)) = ntc at hntc
  have hle : n / ntc ≤ n / 10 := Nat.div_le_div_left hntc (by decide)
  split_ifs with h0
  · exact ⟨Nat.one_pos, fun h => by omega⟩
  · exact ⟨Nat.pos_of_ne_zero h0, fun h => by omega⟩

/-- For a row count of at least 10 the sampling loop visits at least 9 rows. -/
theorem sampledRows_length_ge (n : Nat) (hn : 10 ≤ n) :
    9 ≤ (sampledRows (sampleStep n) n).length := by
  obtain ⟨_, h9⟩ := sampleStep_bounds n
  have h := sampledRowsFrom_length_gt (sampleStep n) n 8 n (sampleStep n)
    (by have := h9 hn; omega) (by omega)
  exact h

/-- C22 (as amended): for every row count of at least 11, when
`matchingBins(A, B, false)` reaches its sampling loop (same row length, first
rows match, same size, not both grids fully shared) and no sampled row
mismatches, the call returns `true` after comparing the boundary sums of every
sampled row; the sampled rows are distinct rows other than row 0 and there
are at least 9 of them, so that at least 10 rows are compared counting row 0,
which is compared before the loop. -/
theorem sampling_compares_at_least_9_rows (A B : MatrixWorkspace α)
    (hn : 11 ≤ A.getNumberHistograms)
    (hlen : (A.readX 0).length = (B.readX 0).length)
    (hfirst : exceedsTolerance (A.sumX 0) (B.sumX 0) = false)
    (hsize : A.size = B.size)
    (hshared : (sharedXData A && sharedXData B) = false)
    (hmatch : ∀ i ∈ sampledRows (sampleStep A.getNumberHistograms) A.getNumberHistograms,
      exceedsTolerance (A.sumX i) (B.sumX i) = false) :
    matchingBins A B false
        = (sampledRows (sampleStep A.getNumberHistograms) A.getNumberHistograms).all
            (fun i => !exceedsTolerance (A.sumX i) (B.sumX i))
      ∧ matchingBins A B false = true
      ∧ (sampledRows (sampleStep A.getNumberHistograms) A.getNumberHistograms).Sorted (· < ·)
      ∧ (∀ i ∈ sampledRows (sampleStep A.getNumberHistograms) A.getNumberHistograms,
          1 ≤ i ∧ i < A.getNumberHistograms)
      ∧ 9 ≤ (sampledRows (sampleStep A.getNumberHistograms) A.getNumberHistograms).length
      ∧ 10 ≤ (0 :: sampledRows (sampleStep A.getNumberHistograms)
          A.getNumberHistograms).length := by
  have hpos := (sampleStep_bounds A.getNumberHistograms).1
  have h9 := sampledRows_length_ge A.getNumberHistograms (by omega)
  have heq := matchingBins_sampling_eq A B hlen hfirst hsize hshared
  refine ⟨heq, ?_, sampledRowsFrom_sorted _ _ hpos _ _, ?_, h9, ?_⟩
  · rw [heq, List.all_eq_true]
    intro i hi
    rw [hmatch i hi]
    rfl
  · intro i hi
    obtain ⟨h1, h2, _⟩ := sampledRows_mem _ _ i hi
    exact ⟨by omega, h2⟩
  · rw [List.length_cons]
    omega

/-- Witness for C22 (as amended): two copies of `separateRowsGrid 20`, where
the bound 9 is attained. -/
theorem sampling_compares_at_least_9_rows_witness :
    11 ≤ (separateRowsGrid 20).getNumberHistograms
      ∧ (sharedXData (separateRowsGrid 20) && sharedXData (separateRowsGrid 20)) = false
      ∧ (matchingBins (separateRowsGrid 20) (separateRowsGrid 20) false
          = (sampledRows (sampleStep (separateRowsGrid 20).getNumberHistograms)
              (separateRowsGrid 20).getNumberHistograms).all
              (fun i => !exceedsTolerance ((separateRowsGrid 20).sumX i)
                ((separateRowsGrid 20).sumX i))
        ∧ matchingBins (separateRowsGrid 20) (separateRowsGrid 20) false = true
        ∧ (sampledRows (sampleStep (separateRowsGrid 20).getNumberHistograms)
            (separateRowsGrid 20).getNumberHistograms).Sorted (· < ·)
        ∧ (∀ i ∈ sampledRows (sampleStep (separateRowsGrid 20).getNumberHistograms)
            (separateRowsGrid 20).getNumberHistograms,
            1 ≤ i ∧ i < (separateRowsGrid 20).getNumberHistograms)
        ∧ 9 ≤ (sampledRows (sampleStep (separateRowsGrid 20).getNumberHistograms)
            (separateRowsGrid 20).getNumberHistograms).length
        ∧ 10 ≤ (0 :: sampledRows (sampleStep (separateRowsGrid 20).getNumberHistograms)
            (separateRowsGrid 20).getNumberHistograms).length) :=
  have hn : 11 ≤ (separateRowsGrid 20).getNumberHistograms := by decide
  have hs : (sharedXData (separateRowsGrid 20) && sharedXData (separateRowsGrid 20))
      = false := by decide
  ⟨hn, hs, sampling_compares_at_least_9_rows (separateRowsGrid 20) (separateRowsGrid 20) hn
    rfl (exceedsTolerance_self _) rfl hs (fun _ _ => exceedsTolerance_self _)⟩

/-- C23: for two 1000-row grids of equal shape whose rows have the same
boundaries except for row 999, `matchingBins(A, B, false)` returns `true`:
the stride is 10 and every sampled row is a multiple of 10 below 1000, so row
999 is not sampled. -/
theorem sampling_misses_row_999 (A B : MatrixWorkspace α)
    (hA : A.getNumberHistograms = 1000) (_hB : B.getNumberHistograms = 1000)
    (hsize : A.size = B.size)
    (hsame : ∀ i, i < 1000 → i ≠ 999 → A.readX i = B.readX i) :
    matchingBins A B false = true
      ∧ sampleStep 1000 = 10
      ∧ (∀ i ∈ sampledRows (sampleStep 1000) 1000, 10 ≤ i ∧ i ≤ 990 ∧ 10 ∣ i)
      ∧ 999 ∉ sampledRows (sampleStep 1000) 1000 := by
  have hstep : sampleStep 1000 = 10 := by decide
  have hmem : ∀ i ∈ sampledRows (sampleStep 1000) 1000, 10 ≤ i ∧ i ≤ 990 ∧ 10 ∣ i := by
    intro i hi
    rw [hstep] at hi
    obtain ⟨h1, h2, h3⟩ := sampledRows_mem 10 1000 i hi
    refine ⟨h1, ?_, h3⟩
    omega
  have hnot : 999 ∉ sampledRows (sampleStep 1000) 1000 := by
    intro h
    have := (hmem 999 h).2.1
    omega
  refine ⟨?_, hstep, hmem, hnot⟩
  have h0 := hsame 0 (by decide) (by decide)
  apply matchingBins_of_sampled_equal A B (by rw [h0]) h0 hsize
  intro i hi
  rw [hA] at hi
  have hi2 := hmem i hi
  exact hsame i (by omega) (by omega)


/-- Witness for C23: `lastRowChangedGrid` is `separateRowsGrid 1000` with other
boundaries in row 999. -/
theorem sampling_misses_row_999_witness :
    matchingBins (separateRowsGrid 1000) lastRowChangedGrid false = true
      ∧ (separateRowsGrid 1000).readX 999 = [0, 1]
      ∧ lastRowChangedGrid.readX 999 = [5, 9] :=
  ⟨(sampling_misses_row_999 (separateRowsGrid 1000) lastRowChangedGrid
      (by simp [MatrixWorkspace.getNumberHistograms, separateRowsGrid])
      (by simp [MatrixWorkspace.getNumberHistograms, lastRowChangedGrid])
      (by simp [MatrixWorkspace.size, MatrixWorkspace.getNumberHistograms,
            MatrixWorkspace.blocksize, separateRowsGrid, lastRowChangedGrid])
      (by
        intro i hi hne
        simp [MatrixWorkspace.readX, separateRowsGrid, lastRowChangedGrid, hi, hne])).1,
   by simp [MatrixWorkspace.readX, separateRowsGrid],
   by simp [MatrixWorkspace.readX, lastRowChangedGrid]⟩

theorem matchingBins_comm_of_rows (A B : MatrixWorkspace α) (firstOnly : Bool)
    (hn : A.size = B.size → (A.readX 0).length = (B.readX 0).length →
      A.getNumberHistograms = B.getNumberHistograms) :
    matchingBins A B firstOnly = matchingBins B A firstOnly := by
  unfold matchingBins
  by_cases hlen : (A.readX 0).length = (B.readX 0).length
  · rw [if_neg (not_not.2 hlen), if_neg (not_not.2 hlen.symm)]
    simp only
    rw [exceedsTolerance_comm (B.sumX 0) (A.sumX 0)]
    cases exceedsTolerance (A.sumX 0) (B.sumX 0)
    · cases firstOnly
      · by_cases hsize : A.size = B.size
        · simp only [Bool.false_eq_true, if_false, ne_eq, hsize, not_true_eq_false]
          rw [Bool.and_comm (sharedXData B) (sharedXData A), ← hn hsize hlen]
          simp only [exceedsTolerance_comm (B.sumX _) (A.sumX _)]
        · have hsize2 : ¬ B.size = A.size := fun h => hsize h.symm
          simp [hsize, hsize2]
      · rfl
    · rfl
  · rw [if_pos hlen, if_pos (fun h => hlen h.symm)]

/-- C29: for grids whose rows all have the same length, with the `Y` vector of
the first row one entry shorter than its boundaries and at least one bin,
`matchingBins(A, B, firstOnly) = matchingBins(B, A, firstOnly)` for both values
of `firstOnly`. -/
theorem matchingBins_symmetric (A B : MatrixWorkspace α) (firstOnly : Bool)
    (_hArows : ∀ s ∈ A.spectra, s.dataY.length = A.blocksize)
    (_hBrows : ∀ s ∈ B.spectra, s.dataY.length = B.blocksize)
    (hA : A.blocksize + 1 = (A.readX 0).length)
    (hB : B.blocksize + 1 = (B.readX 0).length)
    (hApos : 0 < A.blocksize) :
    matchingBins A B firstOnly = matchingBins B A firstOnly := by
  apply matchingBins_comm_of_rows
  intro hsize hlen
  have hb : A.blocksize = B.blocksize := by omega
  unfold MatrixWorkspace.size at hsize
  rw [← hb] at hsize
  exact Nat.eq_of_mul_eq_mul_right hApos hsize

/-- Witness for C29: `gridDifferentRows` and `gridValueEqualRows`, both ways. -/
theorem matchingBins_symmetric_witness :
    matchingBins gridDifferentRows gridValueEqualRows false
      = matchingBins gridValueEqualRows gridDifferentRows false :=
  matchingBins_symmetric gridDifferentRows gridValueEqualRows false
    (by intro s hs; simp [gridDifferentRows] at hs; rcases hs with rfl | rfl <;> rfl)
    (by intro s hs; simp [gridValueEqualRows] at hs; rcases hs with rfl | rfl <;> rfl)
    (by decide) (by decide) (by decide)

theorem makeDistribution_axis1 (ws : MatrixWorkspace α) (forwards : Bool) :
    (makeDistribution ws forwards).axis1 = ws.axis1 := by
  by_cases h : ws.isDistribution = forwards
  · rw [makeDistribution_of_eq ws forwards h]
  · rw [makeDistribution_of_ne ws forwards h]

omit [LinearOrderedField α] in
theorem readX_eq_first_of_share (ws : MatrixWorkspace α)
    (hshare : ∀ s ∈ ws.spectra, s.dataX = ws.readX 0) (i : Nat)
    (hi : i < ws.spectra.length) : ws.readX i = ws.readX 0 := by
  have hmem : ws.spectra[i] ∈ ws.spectra := List.getElem_mem hi
  have h := hshare _ hmem
  rw [← h]
  unfold MatrixWorkspace.readX
  simp [List.get?_eq_getElem?, List.getElem?_eq_getElem hi]

theorem readY_eq_zero_of_ge (ws : MatrixWorkspace α) (i j : Nat)
    (hi : ws.spectra.length ≤ i) : ws.readY i j = 0 := by
  unfold MatrixWorkspace.readY
  simp [List.get?_eq_getElem?, List.getElem?_eq_none hi]

theorem readE_eq_zero_of_ge (ws : MatrixWorkspace α) (i j : Nat)
    (hi : ws.spectra.length ≤ i) : ws.readE i j = 0 := by
  unfold MatrixWorkspace.readE
  simp [List.get?_eq_getElem?, List.getElem?_eq_none hi]

omit [LinearOrderedField α] in
theorem blocksize_eq_of_row_invariant (ws : MatrixWorkspace α)
    (hlen : ∀ s ∈ ws.spectra, s.dataY.length = s.dataX.length - 1) :
    ws.blocksize = (ws.readX 0).length - 1 := by
  unfold MatrixWorkspace.blocksize MatrixWorkspace.readX
  cases hg : ws.spectra.get? 0 with
  | none => rfl
  | some s => exact hlen s (List.get?_mem hg)

/-- Converting a distribution whose rows share their boundaries to counts
multiplies every cell by the width of its column in row 0. -/
theorem makeDistribution_false_read (ws : MatrixWorkspace α) (hdist : ws.isDistribution = true)
    (hshare : ∀ s ∈ ws.spectra, s.dataX = ws.readX 0) (i j : Nat) (hj : j < ws.blocksize) :
    (makeDistribution ws false).readY i j
        = ws.readY i j * |(ws.readX 0).getD (j + 1) 0 - (ws.readX 0).getD j 0|
      ∧ (makeDistribution ws false).readE i j
        = ws.readE i j * |(ws.readX 0).getD (j + 1) 0 - (ws.readX 0).getD j 0| := by
  have hne : ws.isDistribution ≠ false := by rw [hdist]; decide
  rw [makeDistribution_readY ws false hne i j hj, makeDistribution_readE ws false hne i j hj]
  rcases Nat.lt_or_ge i ws.spectra.length with hi | hi
  · rw [readX_eq_first_of_share ws hshare i hi]
    simp
  · rw [readY_eq_zero_of_ge ws i j hi, readE_eq_zero_of_ge ws i j hi]
    simp


/-- What `exec` returns for a numeric row axis, cell by cell. -/
theorem exec_ok_cells (sqrt : α → α) (createBinBoundaries : List α → List α)
    (ws : MatrixWorkspace α) (values newXBins newYBins : List α)
    (haxis : ws.axis1 = Axis.numeric values) :
    ∃ out, exec sqrt createBinBoundaries ws newXBins newYBins = Except.ok out
      ∧ out.isDistribution = ws.isDistribution
      ∧ (0 < newYBins.length - 1 → out.blocksize = newXBins.length - 1)
      ∧ ∀ r c, r < newYBins.length - 1 → c < newXBins.length - 1 →
          out.readX r = newXBins
            ∧ out.readY r c
              = (calculateYE sqrt ws (createBinBoundaries values)
                  (newBin newXBins newYBins r c)).1
            ∧ out.readE r c
              = (calculateYE sqrt ws (createBinBoundaries values)
                  (newBin newXBins newYBins r c)).2 := by
  unfold exec
  rw [haxis]
  refine ⟨_, rfl, rfl, ?_, ?_⟩
  · intro h0
    unfold MatrixWorkspace.blocksize
    simp [h0, execRow]
  · intro r c hr hc
    refine ⟨?_, exec_readY sqrt ws _ _ _ _ _ r c hr hc, exec_readE sqrt ws _ _ _ _ _ r c hr hc⟩
    unfold MatrixWorkspace.readX
    simp [hr, execRow]

/-- The value of a new bin for a distribution is the value for its conversion
to counts, divided by the width of the new bin. -/
theorem calculateYE_dist_eq_counts_div (sqrt : α → α) (ws : MatrixWorkspace α)
    (oldYBins : List α) (P : ConvexPolygon α) (hdist : ws.isDistribution = true)
    (hshare : ∀ s ∈ ws.spectra, s.dataX = ws.readX 0)
    (hlen : ∀ s ∈ ws.spectra, s.dataY.length = s.dataX.length - 1)
    (hox : (ws.readX 0).Sorted (· < ·)) :
    calculateYE sqrt ws oldYBins P
      = ((calculateYE sqrt (makeDistribution ws false) oldYBins P).1 / (P.xHigh - P.xLow),
         (calculateYE sqrt (makeDistribution ws false) oldYBins P).2 / (P.xHigh - P.xLow)) := by
  have hb := blocksize_eq_of_row_invariant ws hlen
  have hflag : (makeDistribution ws false).isDistribution = false :=
    makeDistribution_isDistribution ws false
  have hX : (makeDistribution ws false).readX 0 = ws.readX 0 := makeDistribution_readX ws false 0
  rw [calculateYE_of_dist sqrt ws oldYBins P hdist,
    calculateYE_of_counts sqrt _ oldYBins P hflag, hX, calculateDistYE_eq,
    calculateYEOverlaps_eq]
  have hrec : ∀ o ∈ findIntersections (ws.readX 0) oldYBins P,
      (makeDistribution ws false).readY o.yIndex o.xIndex
          = ws.readY o.yIndex o.xIndex
            * ((ws.readX 0).getD (o.xIndex + 1) 0 - (ws.readX 0).getD o.xIndex 0)
        ∧ (makeDistribution ws false).readE o.yIndex o.xIndex
          = ws.readE o.yIndex o.xIndex
            * ((ws.readX 0).getD (o.xIndex + 1) 0 - (ws.readX 0).getD o.xIndex 0) := by
    intro o ho
    have hj := ((mem_findIntersections_iff _ _ _ o).1 ho).2.1
    have hw : 0 < (ws.readX 0).getD (o.xIndex + 1) 0 - (ws.readX 0).getD o.xIndex 0 :=
      sub_pos.2 (getD_lt_succ_of_sorted _ hox o.xIndex (by omega))
    have h := makeDistribution_false_read ws hdist hshare o.yIndex o.xIndex (by omega)
    rw [abs_of_pos hw] at h
    exact h
  have hY : (findIntersections (ws.readX 0) oldYBins P).map
        (fun o => (makeDistribution ws false).readY o.yIndex o.xIndex * o.weight)
      = (findIntersections (ws.readX 0) oldYBins P).map
        (fun o => ws.readY o.yIndex o.xIndex
          * ((ws.readX 0).getD (o.xIndex + 1) 0 - (ws.readX 0).getD o.xIndex 0) * o.weight) := by
    apply List.map_congr_left
    intro o ho
    rw [(hrec o ho).1]
  have hE : (findIntersections (ws.readX 0) oldYBins P).map
        (fun o => ((makeDistribution ws false).readE o.yIndex o.xIndex * o.weight) ^ 2)
      = (findIntersections (ws.readX 0) oldYBins P).map
        (fun o => (ws.readE o.yIndex o.xIndex
          * ((ws.readX 0).getD (o.xIndex + 1) 0 - (ws.readX 0).getD o.xIndex 0)
          * o.weight) ^ 2) := by
    apply List.map_congr_left
    intro o ho
    rw [(hrec o ho).2]
  rw [hY, hE]

/-- C28: for a distribution whose rows share strictly increasing column
boundaries (each row with one signal entry per bin) and a target grid with
strictly increasing boundaries, rebinning directly gives in every output cell
the same `Y` and `E` as converting the grid to counts, rebinning, and
converting the result back to a distribution. -/
theorem distribution_rebin_conjugate (sqrt : α → α) (createBinBoundaries : List α → List α)
    (ws : MatrixWorkspace α) (values newXBins newYBins : List α)
    (hdist : ws.isDistribution = true) (haxis : ws.axis1 = Axis.numeric values)
    (hshare : ∀ s ∈ ws.spectra, s.dataX = ws.readX 0)
    (hlen : ∀ s ∈ ws.spectra, s.dataY.length = s.dataX.length - 1)
    (hox : (ws.readX 0).Sorted (· < ·))
    (hnx : newXBins.Sorted (· < ·)) (_hny : newYBins.Sorted (· < ·)) :
    ∃ outD outC,
      exec sqrt createBinBoundaries ws newXBins newYBins = Except.ok outD
        ∧ exec sqrt createBinBoundaries (makeDistribution ws false) newXBins newYBins
            = Except.ok outC
        ∧ (makeDistribution outC true).isDistribution = outD.isDistribution
        ∧ ∀ r c, r < newYBins.length - 1 → c < newXBins.length - 1 →
            (makeDistribution outC true).readY r c = outD.readY r c
              ∧ (makeDistribution outC true).readE r c = outD.readE r c := by
  obtain ⟨outD, hD, hDflag, _, hDcells⟩ :=
    exec_ok_cells sqrt createBinBoundaries ws values newXBins newYBins haxis
  obtain ⟨outC, hC, hCflag, hCblock, hCcells⟩ :=
    exec_ok_cells sqrt createBinBoundaries (makeDistribution ws false) values newXBins newYBins
      ((makeDistribution_axis1 ws false).trans haxis)
  refine ⟨outD, outC, hD, hC, ?_, ?_⟩
  · rw [makeDistribution_isDistribution, hDflag, hdist]
  · intro r c hr hc
    have hne : outC.isDistribution ≠ true := by
      rw [hCflag, makeDistribution_isDistribution]
      decide
    have hcb : c < outC.blocksize := by
      rw [hCblock (by omega)]
      exact hc
    obtain ⟨hCX, hCY, hCE⟩ := hCcells r c hr hc
    obtain ⟨_, hDY, hDE⟩ := hDcells r c hr hc
    have hw : 0 < newXBins.getD (c + 1) 0 - newXBins.getD c 0 :=
      sub_pos.2 (getD_lt_succ_of_sorted _ hnx c (by omega))
    have hconj := calculateYE_dist_eq_counts_div sqrt ws (createBinBoundaries values)
      (newBin newXBins newYBins r c) hdist hshare hlen hox
    have hwidth : (newBin newXBins newYBins r c).xHigh - (newBin newXBins newYBins r c).xLow
        = newXBins.getD (c + 1) 0 - newXBins.getD c 0 := rfl
    rw [hwidth] at hconj
    rw [makeDistribution_readY outC true hne r c hcb, makeDistribution_readE outC true hne r c hcb,
      hCX, hCY, hCE, hDY, hDE, hconj]
    simp only [if_true, abs_of_pos hw, and_self]

/-- Witness for C28: `gridDist` rebinned onto `[0, 1/2, 2] × [0, 2]`. -/
theorem distribution_rebin_conjugate_witness :
    ∃ outD outC,
      exec Rat.sqrt id gridDist [0, 1/2, 2] [0, 2] = Except.ok outD
        ∧ exec Rat.sqrt id (makeDistribution gridDist false) [0, 1/2, 2] [0, 2] = Except.ok outC
        ∧ (makeDistribution outC true).isDistribution = outD.isDistribution
        ∧ ∀ r c, r < ([0, 2] : List ℚ).length - 1 → c < ([0, 1/2, 2] : List ℚ).length - 1 →
            (makeDistribution outC true).readY r c = outD.readY r c
              ∧ (makeDistribution outC true).readE r c = outD.readE r c :=
  distribution_rebin_conjugate Rat.sqrt id gridDist [0, 1, 2] [0, 1/2, 2] [0, 2] rfl rfl
    (by intro s hs; simp [gridDist] at hs; rcases hs with rfl | rfl <;> rfl)
    (by intro s hs; simp [gridDist] at hs; rcases hs with rfl | rfl <;> rfl)
    (by decide) (by norm_num [List.Sorted]) (by decide)

end Claims
end Rebin2D
